import Mathlib

/-!
Verification of `scripts/generate-launch-config.js`.

A shallow embedding of the VS Code launch-config generator: the script
pipeline (CLI options, script filtering, backup & load of the existing
`launch.json`, the JS-`Map`-based merge, the single confirmation prompt,
and the final write) is modelled as pure Lean functions, with the
observable I/O actions recorded as an event trace.

Strings are modelled with Lean `String`; JS `String.prototype.includes`
and `String.prototype.startsWith` are modelled by contiguous-sublist and
prefix tests on the character lists; the JS `Map` keyed by config name is
modelled as an association list with JS `Map` semantics (`set` on an
existing key updates the value in place, otherwise appends).
-/

set_option autoImplicit false

namespace LaunchGen

/-- One entry of the `configurations` array, with the exact fields the
script synthesizes (`type`, `request`, `name`, `runtimeExecutable`,
`runtimeArgs`, `console`, `internalConsoleOptions`, `skipFiles`). -/
structure Config where
  type : String
  request : String
  name : String
  runtimeExecutable : String
  runtimeArgs : List String
  console : String
  internalConsoleOptions : String
  skipFiles : List String
deriving DecidableEq, Repr

/-- The `launch.json` document: a version string and the configurations list. -/
structure LaunchJson where
  version : String
  configurations : List Config
deriving DecidableEq, Repr

/-- The fresh default used when no parseable `launch.json` exists
(`{ version: '0.2.0', configurations: [] }`). -/
def freshLaunchJson : LaunchJson := ⟨"0.2.0", []⟩

/-- The config object built for one script name
(the literal object at lines 171–180 of the script). -/
def mkConfig (packageManager scriptName : String) : Config :=
  { type := "node"
    request := "launch"
    name := packageManager ++ ": " ++ scriptName
    runtimeExecutable := packageManager
    runtimeArgs := ["run", scriptName]
    console := "integratedTerminal"
    internalConsoleOptions := "neverOpen"
    skipFiles := ["<node_internals>/**"] }

/-- The identifying name `` `${packageManager}: ${scriptName}` ``. -/
def configNameOf (packageManager scriptName : String) : String :=
  packageManager ++ ": " ++ scriptName

/-- Character-list prefix test, modelling JS `String.prototype.startsWith`. -/
def prefChars : List Char → List Char → Bool
  | [], _ => true
  | _ :: _, [] => false
  | a :: as, b :: bs => a == b && prefChars as bs

/-- Contiguous-sublist test, modelling JS `String.prototype.includes`. -/
def subChars (pat : List Char) : List Char → Bool
  | [] => prefChars pat []
  | b :: bs => prefChars pat (b :: bs) || subChars pat bs

/-- Models `s.includes(pat)` on JS strings. -/
def strIncludes (s pat : String) : Bool := subChars pat.data s.data

/-- Models `s.startsWith(pre)` on JS strings. -/
def strStartsWith (s pre : String) : Bool := prefChars pre.data s.data

/-- CLI options after argument resolution: `--manager`, `--filter`, `--yes`. -/
structure CliOptions where
  packageManager : String
  filterPref : String
  autoYes : Bool
deriving DecidableEq, Repr

/-- The script-extraction stage: drop every script whose name includes
`"generate-launch"`, then, when `filterPrefix` is non-empty (JS truthiness
of the string), keep only names starting with `filterPrefix`. -/
def deriveScripts (filterPref : String) (scripts : List (String × String)) :
    List (String × String) :=
  let noSelf := scripts.filter (fun p => !(strIncludes p.1 "generate-launch"))
  if filterPref = "" then noSelf
  else noSelf.filter (fun p => strStartsWith p.1 filterPref)

/-! ## The JS `Map` keyed by config name

`new Map(entries)` and `map.set` / `map.has` / `map.values()`:
`set` on a present key updates the value in place (keeping the original
insertion position); on an absent key it appends. `values()` returns the
values in insertion order. -/

/-- Models `map.has(k)`. -/
def mapHas (m : List (String × Config)) (k : String) : Bool :=
  m.any (fun p => p.1 == k)

/-- Lookup in the style of `map.get(k)` (first, hence unique, entry with key `k`). -/
def mapGet (m : List (String × Config)) (k : String) : Option Config :=
  (m.find? (fun p => p.1 == k)).map (·.2)

/-- Models `map.set(k, v)`: update in place when the key is present, else append. -/
def mapSet (m : List (String × Config)) (k : String) (v : Config) :
    List (String × Config) :=
  if mapHas m k then m.map (fun p => if p.1 == k then (k, v) else p)
  else m ++ [(k, v)]

/-- Repeated `map.set` of a list of `(key, value)` pairs. -/
def setAll (m : List (String × Config)) (l : List (String × Config)) :
    List (String × Config) :=
  l.foldl (fun m p => mapSet m p.1 p.2) m

/-- Models `new Map(l)`: repeated `set` starting from the empty map. -/
def mapFromList (l : List (String × Config)) : List (String × Config) :=
  setAll [] l

/-- The working map built from an existing `launch.json`
(`new Map(existingConfigs.map((cfg) => [cfg.name, cfg]))`). -/
def existingMap (l : LaunchJson) : List (String × Config) :=
  mapFromList (l.configurations.map (fun c => (c.name, c)))

/-- State of the build loop: the working map, the list of freshly added
config names (`newConfigs`), and the conflicting `(name, config)` pairs
(`configsToOverwrite`), each in insertion order. -/
structure BuildState where
  configMap : List (String × Config)
  newConfigs : List String
  configsToOverwrite : List (String × Config)
deriving DecidableEq, Repr

/-- One iteration of the `for (const scriptName of Object.keys(scripts))`
loop: synthesize the config; a name already in the map is recorded as a
conflict (map untouched), otherwise it is inserted and recorded as new. -/
def buildStep (packageManager : String) (st : BuildState) (scriptName : String) :
    BuildState :=
  let configName := configNameOf packageManager scriptName
  let config := mkConfig packageManager scriptName
  if mapHas st.configMap configName then
    { st with configsToOverwrite := st.configsToOverwrite ++ [(configName, config)] }
  else
    { configMap := mapSet st.configMap configName config
      newConfigs := st.newConfigs ++ [configName]
      configsToOverwrite := st.configsToOverwrite }

/-- The whole build loop over the (filtered) script names. -/
def buildConfigs (packageManager : String) (em : List (String × Config))
    (scriptNames : List String) : BuildState :=
  scriptNames.foldl (buildStep packageManager) ⟨em, [], []⟩

/-- Whitespace trimming on the character list, modelling JS
`String.prototype.trim` (both ends). -/
def trimChars (l : List Char) : List Char :=
  ((l.dropWhile Char.isWhitespace).reverse.dropWhile Char.isWhitespace).reverse

/-- Models `answer.trim().toLowerCase() === 'y'`: how the interactive answer to
the overwrite prompt is interpreted (lowercasing acting on the ASCII
range, as `toLowerCase` does there). -/
def interpretAnswer (answer : String) : Bool :=
  ((trimChars answer.data).map Char.toLower) == "y".data

/-! ## The whole run, with an event trace -/

/-- Observable actions of one invocation, in program order. -/
inductive Event where
  /-- Call to `fs.mkdirSync(vscodeDir)` succeeded. -/
  | mkdirVscode
  /-- The backup file was written, with this exact content. -/
  | backupWrite (content : String)
  /-- Parsing via `JSON.parse` was attempted on this raw content. -/
  | parseAttempt (content : String)
  /-- Warning that the existing launch.json could not be parsed. -/
  | warnParseFailure
  /-- Warning that no scripts matched the filter. -/
  | warnNoScripts
  /-- Diagnostic that no package.json was found (printed before `process.exit(1)`). -/
  | errorNoManifest
  /-- The single yes/no question, with its text. -/
  | prompt (question : String)
  /-- The final `launch.json` write, with the document written. -/
  | finalWrite (doc : LaunchJson)
deriving DecidableEq, Repr

/-- Whether an event is the interactive yes/no question. -/
def isPromptEvent : Event → Bool
  | .prompt _ => true
  | _ => false

/-- Whether an event is a backup-file write. -/
def isBackupEvent : Event → Bool
  | .backupWrite _ => true
  | _ => false

/-- The state of `package.json`: absent, or present with an optional
`scripts` mapping (`pkg.scripts || {}` treats a missing mapping as empty). -/
inductive ManifestState where
  | absent
  | present (scripts : Option (List (String × String)))
deriving DecidableEq, Repr

/-- The state of `.vscode/launch.json` before the run: absent, or present
with raw text `raw`; `parsed` is what `JSON.parse(raw)` yields (`none`
models a parse exception). -/
inductive TargetFile where
  | absent
  | present (raw : String) (parsed : Option LaunchJson)
deriving DecidableEq, Repr

/-- Which I/O operations throw in this run (all `false` = normal run). -/
structure IOFlags where
  mkdirFails : Bool
  readFails : Bool
  backupWriteFails : Bool
  finalWriteFails : Bool
deriving DecidableEq, Repr

/-- The normal run: no I/O operation throws. -/
def noFail : IOFlags := ⟨false, false, false, false⟩

/-- The environment of one invocation. -/
structure Env where
  manifest : ManifestState
  vscodeDirExists : Bool
  target : TargetFile
  flags : IOFlags
  userInput : String
deriving DecidableEq, Repr

/-- How one invocation ends: an explicit `process.exit(code)`, normal
completion after the final write, or an uncaught exception that
propagates (`crashed op`). -/
inductive Termination where
  | exited (code : Nat)
  | completed
  | crashed (op : String)
deriving DecidableEq, Repr

/-- The observable result of one invocation. -/
structure RunResult where
  termination : Termination
  written : Option LaunchJson
  events : List Event
deriving DecidableEq, Repr

/-- The backup-and-load stage (lines 144–159): when the target file
exists, read it, write the timestamped backup with the raw content
unmodified, then attempt to parse; a thrown read, a thrown backup write,
or a parse failure are all caught by the single `try`/`catch`, which
warns and proceeds with the fresh default. Returns the loaded (or fresh)
document and the stage's events in program order. -/
def loadExisting (target : TargetFile) (flags : IOFlags) :
    LaunchJson × List Event :=
  match target with
  | .absent => (freshLaunchJson, [])
  | .present raw parsed =>
    if flags.readFails then (freshLaunchJson, [.warnParseFailure])
    else if flags.backupWriteFails then (freshLaunchJson, [.warnParseFailure])
    else
      match parsed with
      | some l => (l, [.backupWrite raw, .parseAttempt raw])
      | none =>
        (freshLaunchJson, [.backupWrite raw, .parseAttempt raw, .warnParseFailure])

/-- The question text of the single overwrite prompt. -/
def overwriteQuestion (n : Nat) : String :=
  "⚠️ " ++ toString n ++ " configuration(s) already exist. Overwrite all?"

/-- The build state a run computes from the loaded document and the
filtered scripts. -/
def buildOf (opts : CliOptions) (loaded : LaunchJson)
    (scripts : List (String × String)) : BuildState :=
  buildConfigs opts.packageManager (existingMap loaded) (scripts.map Prod.fst)

/-- Whether the single interactive question is asked
(`configsToOverwrite.length > 0 && !autoYes`). -/
def askedOf (opts : CliOptions) (build : BuildState) : Bool :=
  decide (0 < build.configsToOverwrite.length) && !opts.autoYes

/-- The resolved overwrite decision: the interpreted interactive answer
when the question was asked, else `autoYes`. -/
def confirmedOf (opts : CliOptions) (input : String) (build : BuildState) : Bool :=
  if askedOf opts build then interpretAnswer input else opts.autoYes

/-- The final working map: all conflicts overwritten when confirmed, the
map left as built otherwise. -/
def finalMapOf (opts : CliOptions) (input : String) (build : BuildState) :
    List (String × Config) :=
  if confirmedOf opts input build then
    setAll build.configMap build.configsToOverwrite
  else build.configMap

/-- The merged document the run writes
(`{ version: '0.2.0', configurations: Array.from(configMap.values()) }`). -/
def mergedOf (opts : CliOptions) (input : String) (build : BuildState) :
    LaunchJson :=
  ⟨"0.2.0", (finalMapOf opts input build).map Prod.snd⟩

/-- The merge-and-write stages, entered once scripts are non-empty and the
`.vscode` directory exists (lines 143–221): load the existing file, build
the working map, ask the single overwrite question when there are
conflicts and `--yes` was not given, apply the answer to every conflict,
and write the merged document. -/
def runMerge (opts : CliOptions) (env : Env) (scripts : List (String × String))
    (mkEvents : List Event) : RunResult :=
  let loaded := loadExisting env.target env.flags
  let build := buildOf opts loaded.1 scripts
  let promptEvents :=
    if askedOf opts build then
      [Event.prompt (overwriteQuestion build.configsToOverwrite.length)]
    else []
  let merged := mergedOf opts env.userInput build
  if env.flags.finalWriteFails then
    ⟨.crashed "writeFileSync launch.json", none, mkEvents ++ loaded.2 ++ promptEvents⟩
  else
    ⟨.completed, some merged,
      mkEvents ++ loaded.2 ++ promptEvents ++ [.finalWrite merged]⟩

/-- The run once the manifest was found and its scripts filtered: empty
script set warns and exits 0 before touching the filesystem; otherwise
the `.vscode` directory is created if missing (an uncaught `mkdirSync`
failure propagates) and the merge stages run. -/
def runWithScripts (opts : CliOptions) (env : Env)
    (scripts : List (String × String)) : RunResult :=
  if scripts.isEmpty then ⟨.exited 0, none, [.warnNoScripts]⟩
  else if !env.vscodeDirExists && env.flags.mkdirFails then
    ⟨.crashed "mkdirSync", none, []⟩
  else
    runMerge opts env scripts
      (if env.vscodeDirExists then [] else [Event.mkdirVscode])

/-- The scripts mapping carried by a manifest state, when present. -/
def ManifestState.scriptsOf : ManifestState → Option (List (String × String))
  | .absent => none
  | .present s => s

/-- One whole invocation of the script: missing `package.json` is fatal
(`process.exit(1)`); otherwise the scripts mapping (missing treated as
empty) is filtered and the run proceeds. -/
def runTool (opts : CliOptions) (env : Env) : RunResult :=
  if env.manifest = .absent then ⟨.exited 1, none, [.errorNoManifest]⟩
  else
    runWithScripts opts env
      (deriveScripts opts.filterPref (env.manifest.scriptsOf.getD []))

/-- The conflict list (`configsToOverwrite`) a run computes, as a function
of the options, the loaded document and the filtered scripts. -/
def conflictsOf (opts : CliOptions) (loaded : LaunchJson)
    (scripts : List (String × String)) : List (String × Config) :=
  (buildOf opts loaded scripts).configsToOverwrite

/-- Look a config up by its identifying name in a configurations list
(the final file's binding for that name). -/
def findByName (l : List Config) (n : String) : Option Config :=
  l.find? (fun c => c.name == n)

/-- Keys of the working map, in insertion order. -/
def mapKeys (m : List (String × Config)) : List String := m.map Prod.fst

/-- Name invariant: every entry's value carries the entry's key as its
`name` field. Every map the script builds satisfies it. -/
def NameInv (m : List (String × Config)) : Prop :=
  ∀ p ∈ m, (Prod.snd p).name = p.1

/-- Names among `names` whose synthesized config name collides with a key
already in the map `em`. -/
def conflictNames (pm : String) (em : List (String × Config))
    (names : List String) : List String :=
  names.filter (fun s => mapHas em (configNameOf pm s))

/-- Names among `names` whose synthesized config name is not yet a key of `em`. -/
def freshNames (pm : String) (em : List (String × Config))
    (names : List String) : List String :=
  names.filter (fun s => !mapHas em (configNameOf pm s))

/-! ## Sample inputs used by the witnesses -/

/-- A pre-existing entry named `npm: dev` that differs from the freshly
synthesized one. -/
def sampleOld : Config :=
  { type := "node", request := "launch", name := "npm: dev"
    runtimeExecutable := "OLD", runtimeArgs := ["run", "dev"]
    console := "integratedTerminal", internalConsoleOptions := "neverOpen"
    skipFiles := [] }

/-- A pre-existing `launch.json` holding `sampleOld`. -/
def sampleLaunch : LaunchJson := ⟨"0.2.0", [sampleOld]⟩

/-- Default options: `npm`, no filter, no `--yes`. -/
def sampleOpts : CliOptions := ⟨"npm", "", false⟩

/-- Options with `--yes`. -/
def sampleOptsYes : CliOptions := ⟨"npm", "", true⟩

/-- A two-script manifest mapping. -/
def sampleScripts : List (String × String) := [("dev", "vite"), ("build", "vite build")]

/-- A normal environment: manifest and target present, no I/O failures. -/
def sampleEnv (input : String) : Env :=
  ⟨.present (some sampleScripts), true, .present "RAW" (some sampleLaunch),
    noFail, input⟩

/-- An environment whose backup write throws. -/
def envBackupFail : Env :=
  ⟨.present (some sampleScripts), true, .present "RAW" (some sampleLaunch),
    ⟨false, false, true, false⟩, ""⟩

/-- An environment whose `.vscode` directory creation throws. -/
def envMkdirFail : Env :=
  ⟨.present (some sampleScripts), false, .absent, ⟨true, false, false, false⟩, ""⟩

/-- An environment whose final `launch.json` write throws. -/
def envWriteFail : Env :=
  ⟨.present (some sampleScripts), true, .absent, ⟨false, false, false, true⟩, ""⟩

/-- An environment whose only script is excluded by the self-exclusion
rule, while a target file exists. -/
def envSelfOnly : Env :=
  ⟨.present (some [("generate-launch", "node scripts/generate-launch-config.js")]),
    true, .present "OLDCONTENT" (some sampleLaunch), noFail, ""⟩

/-- An environment with no manifest. -/
def envNoManifest : Env := ⟨.absent, true, .absent, noFail, ""⟩

/-- A second pre-existing entry with the same identifying name as
`sampleOld` but a different body. -/
def sampleOld2 : Config := { sampleOld with runtimeExecutable := "OLD2" }

/-- A document carrying two entries with the same identifying name. -/
def dupLaunch : LaunchJson := ⟨"0.2.0", [sampleOld, sampleOld2]⟩

/-- The document a `--yes` run over `sampleEnv` writes. -/
def sampleOut : LaunchJson :=
  ⟨"0.2.0", [mkConfig "npm" "dev", mkConfig "npm" "build"]⟩

/-- The environment of the second `--yes` run: the target now holds
`sampleOut`. -/
def sampleEnv2 : Env :=
  ⟨.present (some sampleScripts), true, .present "RAW2" (some sampleOut),
    noFail, ""⟩

/-! ## Lemmas about the JS map model -/

theorem mapHas_iff {m : List (String × Config)} {k : String} :
    mapHas m k = true ↔ ∃ p ∈ m, p.1 = k := by
  simp [mapHas, List.any_eq_true, beq_iff_eq]

theorem mapHas_eq_false_iff {m : List (String × Config)} {k : String} :
    mapHas m k = false ↔ ∀ p ∈ m, p.1 ≠ k := by
  rw [← Bool.not_eq_true, mapHas_iff]
  push_neg
  rfl

theorem mapHas_append (a b : List (String × Config)) (k : String) :
    mapHas (a ++ b) k = (mapHas a k || mapHas b k) := by
  simp [mapHas]

theorem mapGet_isSome_iff {m : List (String × Config)} {k : String} :
    (mapGet m k).isSome = true ↔ mapHas m k = true := by
  simp [mapGet, mapHas, List.any_eq_true]

theorem mapGet_append (a b : List (String × Config)) (k : String) :
    mapGet (a ++ b) k = (mapGet a k).or (mapGet b k) := by
  simp only [mapGet, List.find?_append]
  cases a.find? (fun p => p.1 == k) <;> simp

theorem mapSet_of_fresh {m : List (String × Config)} {k : String} (v : Config)
    (h : mapHas m k = false) : mapSet m k v = m ++ [(k, v)] := by
  simp [mapSet, h]

theorem mapKeys_mapSet (m : List (String × Config)) (k : String) (v : Config) :
    mapKeys (mapSet m k v) =
      if mapHas m k then mapKeys m else mapKeys m ++ [k] := by
  by_cases h : mapHas m k
  · rw [mapSet, if_pos h, if_pos h, mapKeys, mapKeys, List.map_map]
    apply List.map_congr_left
    intro p _
    by_cases hk : p.1 = k <;> simp [hk]
  · simp [mapSet, h, mapKeys]

theorem find?_replace_self (m : List (String × Config)) (k : String) (v : Config) :
    ((m.map (fun p => if p.1 == k then (k, v) else p)).find? (fun p => p.1 == k)) =
      (m.find? (fun p => p.1 == k)).map (fun _ => (k, v)) := by
  induction m with
  | nil => rfl
  | cons p rest ih =>
    rw [List.map_cons]
    by_cases h : p.1 = k
    · rw [if_pos (by simp [h]), List.find?_cons_of_pos _ (by simp),
        List.find?_cons_of_pos _ (by simp [h])]
      rfl
    · rw [if_neg (by simp [h]), List.find?_cons_of_neg _ (by simp [h]),
        List.find?_cons_of_neg _ (by simp [h]), ih]

theorem find?_replace_ne (m : List (String × Config)) (k : String) (v : Config)
    (k' : String) (h : k' ≠ k) :
    ((m.map (fun p => if p.1 == k then (k, v) else p)).find? (fun p => p.1 == k')) =
      m.find? (fun p => p.1 == k') := by
  induction m with
  | nil => rfl
  | cons p rest ih =>
    rw [List.map_cons]
    by_cases hk : p.1 = k
    · rw [if_pos (by simp [hk]),
        List.find?_cons_of_neg _ (by simp; exact fun hh => h hh.symm),
        List.find?_cons_of_neg _ (by simp [hk]; exact fun hh => h hh.symm), ih]
    · rw [if_neg (by simp [hk])]
      by_cases hk' : p.1 = k'
      · rw [List.find?_cons_of_pos _ (by simp [hk']),
          List.find?_cons_of_pos _ (by simp [hk'])]
      · rw [List.find?_cons_of_neg _ (by simp [hk']),
          List.find?_cons_of_neg _ (by simp [hk']), ih]

theorem mapGet_mapSet (m : List (String × Config)) (k : String) (v : Config)
    (k' : String) :
    mapGet (mapSet m k v) k' = if k' = k then some v else mapGet m k' := by
  by_cases hk : k' = k
  · subst hk
    rw [if_pos rfl]
    by_cases h : mapHas m k'
    · have hsome : (m.find? (fun p => p.1 == k')).isSome = true := by
        rw [List.find?_isSome]
        simpa [mapHas, List.any_eq_true] using h
      rw [mapSet, if_pos h]
      show (List.find? (fun p => p.1 == k')
        (m.map fun p => if p.1 == k' then (k', v) else p)).map (·.2) = some v
      rw [find?_replace_self m k' v]
      obtain ⟨q, hq⟩ := Option.isSome_iff_exists.1 hsome
      rw [hq]
      rfl
    · rw [mapSet, if_neg h]
      have hnone : m.find? (fun p => p.1 == k') = none := by
        rw [List.find?_eq_none]
        intro p hp
        simp only [beq_iff_eq]
        exact (mapHas_eq_false_iff.1 (by simpa using h)) p hp
      show (List.find? (fun p => p.1 == k') (m ++ [(k', v)])).map (·.2) = some v
      rw [List.find?_append, hnone]
      simp
  · rw [if_neg hk]
    by_cases h : mapHas m k
    · rw [mapSet, if_pos h]
      show (List.find? (fun p => p.1 == k')
        (m.map fun p => if p.1 == k then (k, v) else p)).map (·.2) = mapGet m k'
      rw [find?_replace_ne m k v k' hk]
      rfl
    · rw [mapSet, if_neg h]
      have hone : List.find? (fun p => p.1 == k') [(k, v)] = none := by
        simp
        exact fun hh => hk hh.symm
      show (List.find? (fun p => p.1 == k') (m ++ [(k, v)])).map (·.2) = mapGet m k'
      rw [List.find?_append, hone]
      simp [mapGet]

theorem setAll_cons (m : List (String × Config)) (p : String × Config)
    (l : List (String × Config)) :
    setAll m (p :: l) = setAll (mapSet m p.1 p.2) l := rfl

theorem mapGet_setAll (l : List (String × Config)) (m : List (String × Config))
    (k : String) :
    mapGet (setAll m l) k =
      ((l.reverse.find? (fun p => p.1 == k)).map (·.2)).or (mapGet m k) := by
  induction l generalizing m with
  | nil => simp [setAll]
  | cons p rest ih =>
    rw [setAll_cons, ih, List.reverse_cons, List.find?_append]
    by_cases h : p.1 = k
    · cases hr : rest.reverse.find? (fun q => q.1 == k) <;>
        simp [hr, mapGet_mapSet, h]
    · cases hr : rest.reverse.find? (fun q => q.1 == k) <;>
        simp [hr, mapGet_mapSet, h, Ne.symm h]

theorem mapGet_mapFromList (l : List (String × Config)) (k : String) :
    mapGet (mapFromList l) k = (l.reverse.find? (fun p => p.1 == k)).map (·.2) := by
  rw [mapFromList, mapGet_setAll]
  simp [mapGet]

theorem mapKeys_nodup_mapSet {m : List (String × Config)} (k : String) (v : Config)
    (h : (mapKeys m).Nodup) : (mapKeys (mapSet m k v)).Nodup := by
  rw [mapKeys_mapSet]
  split
  · exact h
  · next hfresh =>
    rw [List.nodup_append]
    refine ⟨h, List.nodup_singleton k, ?_⟩
    intro x hx hk1
    rw [List.mem_singleton] at hk1
    subst hk1
    obtain ⟨p, hp, hpk⟩ := List.mem_map.1 hx
    exact hfresh (mapHas_iff.2 ⟨p, hp, hpk⟩)

theorem nameInv_mapSet {m : List (String × Config)} {k : String} {v : Config}
    (h : NameInv m) (hv : v.name = k) : NameInv (mapSet m k v) := by
  intro p hp
  rw [mapSet] at hp
  split at hp
  · obtain ⟨q, hq, rfl⟩ := List.mem_map.1 hp
    by_cases hqk : q.1 = k
    · simp [hqk, hv]
    · rw [if_neg (by simp [hqk])]
      exact h q hq
  · rcases List.mem_append.1 hp with h1 | h1
    · exact h p h1
    · rw [List.mem_singleton] at h1
      subst h1
      simpa using hv

theorem mapKeys_setAll_nodup {l : List (String × Config)} :
    ∀ {m : List (String × Config)}, (mapKeys m).Nodup →
      (mapKeys (setAll m l)).Nodup := by
  induction l with
  | nil => intro m h; exact h
  | cons p rest ih =>
    intro m h
    rw [setAll_cons]
    exact ih (mapKeys_nodup_mapSet _ _ h)

theorem nameInv_setAll {l : List (String × Config)}
    (hl : ∀ p ∈ l, (Prod.snd p).name = p.1) :
    ∀ {m : List (String × Config)}, NameInv m → NameInv (setAll m l) := by
  induction l with
  | nil => intro m h; exact h
  | cons p rest ih =>
    intro m h
    rw [setAll_cons]
    exact ih (fun q hq => hl q (List.mem_cons_of_mem _ hq))
      (nameInv_mapSet h (hl p (List.mem_cons_self _ _)))

theorem mapKeys_mapFromList_nodup (l : List (String × Config)) :
    (mapKeys (mapFromList l)).Nodup :=
  mapKeys_setAll_nodup (by simp [mapKeys])

theorem nameInv_existingMap (l : LaunchJson) : NameInv (existingMap l) := by
  apply nameInv_setAll
  · intro p hp
    obtain ⟨c, _, rfl⟩ := List.mem_map.1 hp
    rfl
  · intro p hp
    exact absurd hp (List.not_mem_nil p)

theorem mapKeys_existingMap_nodup (l : LaunchJson) :
    (mapKeys (existingMap l)).Nodup :=
  mapKeys_mapFromList_nodup _

theorem eq_of_mem_of_nodup_keys {m : List (String × Config)}
    {p q : String × Config} (hnd : (mapKeys m).Nodup)
    (hp : p ∈ m) (hq : q ∈ m) (h : p.1 = q.1) : p = q :=
  List.inj_on_of_nodup_map hnd hp hq h

theorem mapSet_eq_self {m : List (String × Config)} {k : String} {v : Config}
    (hnd : (mapKeys m).Nodup) (hget : mapGet m k = some v) : mapSet m k v = m := by
  have hfind : ∃ q, m.find? (fun p => p.1 == k) = some q ∧ q.2 = v := by
    rw [mapGet] at hget
    cases hq : m.find? (fun p => p.1 == k) with
    | none => rw [hq] at hget; simp at hget
    | some q =>
      rw [hq] at hget
      simp only [Option.map_some'] at hget
      exact ⟨q, rfl, Option.some.inj hget⟩
  obtain ⟨q, hq, hqv⟩ := hfind
  have hqmem : q ∈ m := List.mem_of_find?_eq_some hq
  have hqk : q.1 = k := by simpa [beq_iff_eq] using List.find?_some hq
  have hhas : mapHas m k = true := mapHas_iff.2 ⟨q, hqmem, hqk⟩
  rw [mapSet, if_pos hhas]
  have hrepl : ∀ p ∈ m, (if p.1 == k then (k, v) else p) = p := by
    intro p hp
    by_cases hpk : p.1 = k
    · have hpq : p = q :=
        eq_of_mem_of_nodup_keys hnd hp hqmem (hpk.trans hqk.symm)

      have : q = (k, v) := Prod.ext hqk hqv
      rw [if_pos (by simp [hpk]), hpq, this]
    · rw [if_neg (by simp [hpk])]
  exact (List.map_congr_left hrepl).trans (List.map_id m)

theorem findByName_map_snd {m : List (String × Config)} (h : NameInv m)
    (n : String) : findByName (m.map Prod.snd) n = mapGet m n := by
  induction m with
  | nil => rfl
  | cons p rest ih =>
    have hp : p.2.name = p.1 := h p (List.mem_cons_self _ _)
    rw [List.map_cons, findByName]
    by_cases hn : p.1 = n
    · rw [List.find?_cons_of_pos _ (by simp [hp, hn]), mapGet,
        List.find?_cons_of_pos _ (by simp [hn])]
      rfl
    · rw [List.find?_cons_of_neg _ (by simp [hp, hn]), mapGet,
        List.find?_cons_of_neg _ (by simp [hn])]
      exact ih (fun q hq => h q (List.mem_cons_of_mem _ hq))

theorem setAll_of_fresh {l : List (String × Config)} :
    ∀ {m : List (String × Config)}, (∀ p ∈ l, mapHas m p.1 = false) →
      (l.map Prod.fst).Nodup → setAll m l = m ++ l := by
  induction l with
  | nil => intro m _ _; simp [setAll]
  | cons p rest ih =>
    intro m hfresh hnd
    rw [List.map_cons, List.nodup_cons] at hnd
    rw [setAll_cons, mapSet_of_fresh _ (hfresh p (List.mem_cons_self _ _)), ih ?_ hnd.2]
    · rw [List.append_assoc, List.singleton_append]
    · intro q hq
      rw [mapHas_append, hfresh q (List.mem_cons_of_mem _ hq), Bool.false_or,
        mapHas_eq_false_iff]
      intro r hr
      rw [List.mem_singleton] at hr
      subst hr
      intro hcon
      exact hnd.1 (hcon ▸ List.mem_map_of_mem Prod.fst hq)

theorem mapFromList_eq_self {l : List (String × Config)}
    (hnd : (l.map Prod.fst).Nodup) : mapFromList l = l := by
  have h := @setAll_of_fresh l [] (fun p _ => rfl) hnd
  rw [mapFromList, h, List.nil_append]

theorem configNameOf_inj {pm a b : String}
    (h : configNameOf pm a = configNameOf pm b) : a = b := by
  rw [configNameOf, configNameOf] at h
  have hd := congrArg String.data h
  rw [String.data_append, String.data_append] at hd
  exact String.ext (List.append_cancel_left hd)

/-! ## Characterization of the build loop -/

theorem mapHas_append_single_ne {m : List (String × Config)} {k k' : String}
    (v : Config) (h : k' ≠ k) : mapHas (m ++ [(k, v)]) k' = mapHas m k' := by
  rw [mapHas_append]
  have hone : mapHas [(k, v)] k' = false := by
    rw [mapHas_eq_false_iff]
    intro p hp
    rw [List.mem_singleton] at hp
    subst hp
    exact fun hc => h hc.symm
  rw [hone, Bool.or_false]

theorem buildStep_of_has {pm : String} {st : BuildState} {s : String}
    (h : mapHas st.configMap (configNameOf pm s) = true) :
    buildStep pm st s = { st with configsToOverwrite :=
      st.configsToOverwrite ++ [(configNameOf pm s, mkConfig pm s)] } := by
  simp [buildStep, h]

theorem buildStep_of_fresh {pm : String} {st : BuildState} {s : String}
    (h : mapHas st.configMap (configNameOf pm s) = false) :
    buildStep pm st s =
      { configMap := mapSet st.configMap (configNameOf pm s) (mkConfig pm s)
        newConfigs := st.newConfigs ++ [configNameOf pm s]
        configsToOverwrite := st.configsToOverwrite } := by
  simp [buildStep, h]

/-- The full equational description of the build loop, run from an
arbitrary state, for duplicate-free script names. -/
theorem buildLoop_spec (pm : String) :
    ∀ (names : List String) (st : BuildState), names.Nodup →
      (names.foldl (buildStep pm) st).configMap =
          st.configMap ++ (freshNames pm st.configMap names).map
            (fun s => (configNameOf pm s, mkConfig pm s)) ∧
      (names.foldl (buildStep pm) st).newConfigs =
          st.newConfigs ++ (freshNames pm st.configMap names).map
            (fun s => configNameOf pm s) ∧
      (names.foldl (buildStep pm) st).configsToOverwrite =
          st.configsToOverwrite ++ (conflictNames pm st.configMap names).map
            (fun s => (configNameOf pm s, mkConfig pm s)) := by
  intro names
  induction names with
  | nil =>
    intro st _
    simp [freshNames, conflictNames]
  | cons s rest ih =>
    intro st hnd
    rw [List.nodup_cons] at hnd
    rw [List.foldl_cons]
    by_cases h : mapHas st.configMap (configNameOf pm s) = true
    · rw [buildStep_of_has h]
      obtain ⟨h1, h2, h3⟩ := ih ⟨st.configMap, st.newConfigs,
        st.configsToOverwrite ++ [(configNameOf pm s, mkConfig pm s)]⟩ hnd.2
      dsimp only at h1 h2 h3
      refine ⟨?_, ?_, ?_⟩
      · rw [h1]
        simp only [freshNames]
        rw [List.filter_cons_of_neg (by simp [h])]
      · rw [h2]
        simp only [freshNames]
        rw [List.filter_cons_of_neg (by simp [h])]
      · rw [h3]
        simp only [conflictNames]
        rw [List.filter_cons_of_pos (by simp [h]), List.map_cons,
          List.append_assoc, List.singleton_append]
    · rw [Bool.not_eq_true] at h
      rw [buildStep_of_fresh h]
      obtain ⟨h1, h2, h3⟩ := ih ⟨mapSet st.configMap (configNameOf pm s)
          (mkConfig pm s), st.newConfigs ++ [configNameOf pm s],
        st.configsToOverwrite⟩ hnd.2
      dsimp only at h1 h2 h3
      have hmap : mapSet st.configMap (configNameOf pm s) (mkConfig pm s) =
          st.configMap ++ [(configNameOf pm s, mkConfig pm s)] :=
        mapSet_of_fresh _ h
      have hfresh2 : freshNames pm (st.configMap ++
          [(configNameOf pm s, mkConfig pm s)]) rest =
          freshNames pm st.configMap rest := by
        rw [freshNames, freshNames]
        apply List.filter_congr
        intro t ht
        have hne : configNameOf pm t ≠ configNameOf pm s := by
          intro hc
          exact hnd.1 (configNameOf_inj hc ▸ ht)
        rw [mapHas_append_single_ne _ hne]
      have hconfl2 : conflictNames pm (st.configMap ++
          [(configNameOf pm s, mkConfig pm s)]) rest =
          conflictNames pm st.configMap rest := by
        rw [conflictNames, conflictNames]
        apply List.filter_congr
        intro t ht
        have hne : configNameOf pm t ≠ configNameOf pm s := by
          intro hc
          exact hnd.1 (configNameOf_inj hc ▸ ht)
        rw [mapHas_append_single_ne _ hne]
      rw [hmap] at h1 h2 h3 ⊢
      rw [hfresh2] at h1 h2
      rw [hconfl2] at h3
      refine ⟨?_, ?_, ?_⟩
      · rw [h1]
        simp only [freshNames]
        rw [List.filter_cons_of_pos (by simp [h]), List.map_cons,
          List.append_assoc, List.singleton_append]
      · rw [h2]
        simp only [freshNames]
        rw [List.filter_cons_of_pos (by simp [h]), List.map_cons,
          List.append_assoc, List.singleton_append]
      · rw [h3]
        simp only [conflictNames]
        rw [List.filter_cons_of_neg (by simp [h])]

/-- The working map after the build loop: the existing entries followed by
the freshly inserted ones, in script order. -/
theorem buildConfigs_configMap {pm : String} {em : List (String × Config)}
    {names : List String} (hnd : names.Nodup) :
    (buildConfigs pm em names).configMap =
      em ++ (freshNames pm em names).map
        (fun s => (configNameOf pm s, mkConfig pm s)) :=
  (buildLoop_spec pm names ⟨em, [], []⟩ hnd).1

/-- The `newConfigs` list after the build loop. -/
theorem buildConfigs_newConfigs {pm : String} {em : List (String × Config)}
    {names : List String} (hnd : names.Nodup) :
    (buildConfigs pm em names).newConfigs =
      (freshNames pm em names).map (fun s => configNameOf pm s) := by
  have h := (buildLoop_spec pm names ⟨em, [], []⟩ hnd).2.1
  simpa using h

/-- The `configsToOverwrite` list after the build loop. -/
theorem buildConfigs_overwrites {pm : String} {em : List (String × Config)}
    {names : List String} (hnd : names.Nodup) :
    (buildConfigs pm em names).configsToOverwrite =
      (conflictNames pm em names).map
        (fun s => (configNameOf pm s, mkConfig pm s)) := by
  have h := (buildLoop_spec pm names ⟨em, [], []⟩ hnd).2.2
  simpa using h

/-! ## Run-level lemmas -/

theorem mem_mapKeys_iff {m : List (String × Config)} {x : String} :
    x ∈ mapKeys m ↔ mapHas m x = true := by
  rw [mapKeys, mapHas_iff]
  simp

theorem find?_reverse_of_nodup_keys {l : List (String × Config)}
    {p : String × Config} (hnd : (l.map Prod.fst).Nodup) (hp : p ∈ l) :
    l.reverse.find? (fun q => q.1 == p.1) = some p := by
  have hmem : p ∈ l.reverse := List.mem_reverse.2 hp
  have hsome : (l.reverse.find? (fun q => q.1 == p.1)).isSome := by
    rw [List.find?_isSome]
    exact ⟨p, hmem, by simp⟩
  obtain ⟨q, hq⟩ := Option.isSome_iff_exists.1 hsome
  have hqmem : q ∈ l := List.mem_reverse.1 (List.mem_of_find?_eq_some hq)
  have hqk : q.1 = p.1 := by simpa using List.find?_some hq
  rw [hq]
  exact congrArg some (eq_of_mem_of_nodup_keys hnd hqmem hp hqk)

theorem mapGet_of_nodup_mem {l : List (String × Config)} {p : String × Config}
    (hnd : (l.map Prod.fst).Nodup) (hp : p ∈ l) : mapGet l p.1 = some p.2 := by
  have hsome : (l.find? (fun q => q.1 == p.1)).isSome := by
    rw [List.find?_isSome]
    exact ⟨p, hp, by simp⟩
  obtain ⟨q, hq⟩ := Option.isSome_iff_exists.1 hsome
  have hqmem : q ∈ l := List.mem_of_find?_eq_some hq
  rw [mapGet, hq,
    eq_of_mem_of_nodup_keys hnd hqmem hp (by simpa using List.find?_some hq)]
  rfl

theorem setAll_eq_self {m : List (String × Config)} (hnd : (mapKeys m).Nodup) :
    ∀ {l : List (String × Config)},
      (∀ p ∈ l, mapGet m p.1 = some p.2) → setAll m l = m := by
  intro l
  induction l with
  | nil => intro _; rfl
  | cons p rest ih =>
    intro h
    rw [setAll_cons, mapSet_eq_self hnd (h p (List.mem_cons_self _ _))]
    exact ih (fun q hq => h q (List.mem_cons_of_mem _ hq))

theorem buildLoop_keys_nodup (pm : String) :
    ∀ (names : List String) (st : BuildState), (mapKeys st.configMap).Nodup →
      (mapKeys ((names.foldl (buildStep pm) st).configMap)).Nodup := by
  intro names
  induction names with
  | nil => intro st h; exact h
  | cons s rest ih =>
    intro st h
    rw [List.foldl_cons]
    apply ih
    by_cases hh : mapHas st.configMap (configNameOf pm s) = true
    · rw [buildStep_of_has hh]; exact h
    · rw [Bool.not_eq_true] at hh
      rw [buildStep_of_fresh hh]
      exact mapKeys_nodup_mapSet _ _ h

theorem buildLoop_nameInv (pm : String) :
    ∀ (names : List String) (st : BuildState), NameInv st.configMap →
      NameInv ((names.foldl (buildStep pm) st).configMap) := by
  intro names
  induction names with
  | nil => intro st h; exact h
  | cons s rest ih =>
    intro st h
    rw [List.foldl_cons]
    apply ih
    by_cases hh : mapHas st.configMap (configNameOf pm s) = true
    · rw [buildStep_of_has hh]; exact h
    · rw [Bool.not_eq_true] at hh
      rw [buildStep_of_fresh hh]
      exact nameInv_mapSet h rfl

theorem buildLoop_overwrites_inv (pm : String) :
    ∀ (names : List String) (st : BuildState),
      (∀ p ∈ st.configsToOverwrite, (Prod.snd p).name = p.1) →
      ∀ p ∈ (names.foldl (buildStep pm) st).configsToOverwrite,
        (Prod.snd p).name = p.1 := by
  intro names
  induction names with
  | nil => intro st h; exact h
  | cons s rest ih =>
    intro st h
    rw [List.foldl_cons]
    apply ih
    by_cases hh : mapHas st.configMap (configNameOf pm s) = true
    · rw [buildStep_of_has hh]
      intro p hp
      rcases List.mem_append.1 hp with h1 | h1
      · exact h p h1
      · rw [List.mem_singleton] at h1
        subst h1
        rfl
    · rw [Bool.not_eq_true] at hh
      rw [buildStep_of_fresh hh]
      exact h

theorem buildOf_keys_nodup (opts : CliOptions) (loaded : LaunchJson)
    (scripts : List (String × String)) :
    (mapKeys (buildOf opts loaded scripts).configMap).Nodup :=
  buildLoop_keys_nodup _ _ _ (mapKeys_existingMap_nodup loaded)

theorem buildOf_nameInv (opts : CliOptions) (loaded : LaunchJson)
    (scripts : List (String × String)) :
    NameInv (buildOf opts loaded scripts).configMap :=
  buildLoop_nameInv _ _ _ (nameInv_existingMap loaded)

theorem buildOf_overwrites_inv (opts : CliOptions) (loaded : LaunchJson)
    (scripts : List (String × String)) :
    ∀ p ∈ (buildOf opts loaded scripts).configsToOverwrite,
      (Prod.snd p).name = p.1 :=
  buildLoop_overwrites_inv _ _ _
    (fun p hp => absurd hp (List.not_mem_nil p))

/-- The build-loop characterization, phrased at the `buildOf` level. -/
theorem buildOf_configMap_eq (opts : CliOptions) (loaded : LaunchJson)
    {scripts : List (String × String)} (hnd : (scripts.map Prod.fst).Nodup) :
    (buildOf opts loaded scripts).configMap =
      existingMap loaded ++
        (freshNames opts.packageManager (existingMap loaded)
          (scripts.map Prod.fst)).map
          (fun s => (configNameOf opts.packageManager s,
            mkConfig opts.packageManager s)) :=
  buildConfigs_configMap hnd

/-- The conflict-list characterization, phrased at the `buildOf` level. -/
theorem buildOf_overwrites_eq (opts : CliOptions) (loaded : LaunchJson)
    {scripts : List (String × String)} (hnd : (scripts.map Prod.fst).Nodup) :
    (buildOf opts loaded scripts).configsToOverwrite =
      (conflictNames opts.packageManager (existingMap loaded)
        (scripts.map Prod.fst)).map
        (fun s => (configNameOf opts.packageManager s,
          mkConfig opts.packageManager s)) :=
  buildConfigs_overwrites hnd

theorem finalMapOf_keys_nodup (opts : CliOptions) (input : String)
    {b : BuildState} (h : (mapKeys b.configMap).Nodup) :
    (mapKeys (finalMapOf opts input b)).Nodup := by
  rw [finalMapOf]
  split
  · exact mapKeys_setAll_nodup h
  · exact h

theorem finalMapOf_nameInv (opts : CliOptions) (input : String)
    {b : BuildState} (h : NameInv b.configMap)
    (hov : ∀ p ∈ b.configsToOverwrite, (Prod.snd p).name = p.1) :
    NameInv (finalMapOf opts input b) := by
  rw [finalMapOf]
  split
  · exact nameInv_setAll hov h
  · exact h

theorem map_name_map_snd {m : List (String × Config)} (h : NameInv m) :
    (m.map Prod.snd).map Config.name = mapKeys m := by
  rw [List.map_map, mapKeys]
  exact List.map_congr_left (fun p hp => h p hp)

theorem mergedOf_names_nodup (opts : CliOptions) (input : String)
    (loaded : LaunchJson) (scripts : List (String × String)) :
    (((mergedOf opts input (buildOf opts loaded scripts)).configurations).map
      Config.name).Nodup := by
  rw [mergedOf]
  show (((finalMapOf opts input (buildOf opts loaded scripts)).map
    Prod.snd).map Config.name).Nodup
  rw [map_name_map_snd (finalMapOf_nameInv opts input
    (buildOf_nameInv opts loaded scripts)
    (buildOf_overwrites_inv opts loaded scripts))]
  exact finalMapOf_keys_nodup opts input (buildOf_keys_nodup opts loaded scripts)

theorem runMerge_written_eq (opts : CliOptions) (env : Env)
    (scripts : List (String × String)) (mkEvents : List Event)
    (hwf : env.flags.finalWriteFails = false) :
    (runMerge opts env scripts mkEvents).written =
      some (mergedOf opts env.userInput
        (buildOf opts (loadExisting env.target env.flags).1 scripts)) := by
  simp only [runMerge]
  rw [if_neg (by simp [hwf])]

theorem runMerge_events_eq (opts : CliOptions) (env : Env)
    (scripts : List (String × String)) (mkEvents : List Event)
    (hwf : env.flags.finalWriteFails = false) :
    (runMerge opts env scripts mkEvents).events =
      mkEvents ++ (loadExisting env.target env.flags).2 ++
      (if askedOf opts (buildOf opts (loadExisting env.target env.flags).1 scripts)
        then [Event.prompt (overwriteQuestion
          (buildOf opts (loadExisting env.target env.flags).1
            scripts).configsToOverwrite.length)]
        else []) ++
      [.finalWrite (mergedOf opts env.userInput
        (buildOf opts (loadExisting env.target env.flags).1 scripts))] := by
  simp only [runMerge]
  rw [if_neg (by simp [hwf])]

theorem runTool_written_eq (opts : CliOptions) (env : Env)
    (hm : ¬env.manifest = .absent)
    (hne : (deriveScripts opts.filterPref
      (env.manifest.scriptsOf.getD [])).isEmpty = false)
    (hmk : (!env.vscodeDirExists && env.flags.mkdirFails) = false)
    (hwf : env.flags.finalWriteFails = false) :
    (runTool opts env).written =
      some (mergedOf opts env.userInput
        (buildOf opts (loadExisting env.target env.flags).1
          (deriveScripts opts.filterPref (env.manifest.scriptsOf.getD [])))) := by
  rw [runTool, if_neg hm, runWithScripts, if_neg (by simp [hne]),
    if_neg (by simp [hmk])]
  exact runMerge_written_eq opts env _ _ hwf

theorem runTool_events_eq (opts : CliOptions) (env : Env)
    (hm : ¬env.manifest = .absent)
    (hne : (deriveScripts opts.filterPref
      (env.manifest.scriptsOf.getD [])).isEmpty = false)
    (hmk : (!env.vscodeDirExists && env.flags.mkdirFails) = false)
    (hwf : env.flags.finalWriteFails = false) :
    (runTool opts env).events =
      (if env.vscodeDirExists then [] else [Event.mkdirVscode]) ++
      (loadExisting env.target env.flags).2 ++
      (if askedOf opts (buildOf opts (loadExisting env.target env.flags).1
          (deriveScripts opts.filterPref (env.manifest.scriptsOf.getD [])))
        then [Event.prompt (overwriteQuestion
          (buildOf opts (loadExisting env.target env.flags).1
            (deriveScripts opts.filterPref
              (env.manifest.scriptsOf.getD []))).configsToOverwrite.length)]
        else []) ++
      [.finalWrite (mergedOf opts env.userInput
        (buildOf opts (loadExisting env.target env.flags).1
          (deriveScripts opts.filterPref
            (env.manifest.scriptsOf.getD []))))] := by
  rw [runTool, if_neg hm, runWithScripts, if_neg (by simp [hne]),
    if_neg (by simp [hmk])]
  exact runMerge_events_eq opts env _ _ hwf

theorem runTool_written_inv (opts : CliOptions) (env : Env) (o : LaunchJson)
    (hw : (runTool opts env).written = some o) :
    ¬env.manifest = .absent ∧
    (deriveScripts opts.filterPref
      (env.manifest.scriptsOf.getD [])).isEmpty = false ∧
    env.flags.finalWriteFails = false ∧
    o = mergedOf opts env.userInput
      (buildOf opts (loadExisting env.target env.flags).1
        (deriveScripts opts.filterPref (env.manifest.scriptsOf.getD []))) := by
  rw [runTool] at hw
  split at hw
  · exact absurd hw (by simp)
  · next hm =>
    rw [runWithScripts] at hw
    split at hw
    · exact absurd hw (by simp)
    · next hne =>
      split at hw
      · exact absurd hw (by simp)
      · next hmk =>
        simp only [runMerge] at hw
        split at hw
        · exact absurd hw (by simp)
        · next hwf =>
          refine ⟨hm, by simpa using hne, by simpa using hwf, ?_⟩
          exact (Option.some.inj hw).symm

theorem loadExisting_prompt_count (target : TargetFile) (flags : IOFlags) :
    ((loadExisting target flags).2).countP isPromptEvent = 0 := by
  rcases target with _ | ⟨raw, parsed⟩
  · rfl
  · rcases parsed with _ | l <;>
    · simp only [loadExisting]
      split
      · rfl
      · split <;> rfl

theorem isEmpty_false_of_ne_nil {α : Type} {l : List α} (h : l ≠ []) :
    l.isEmpty = false := by
  cases l with
  | nil => exact absurd rfl h
  | cons a t => rfl

theorem conflictNames_nodup {pm : String} {em : List (String × Config)}
    {names : List String} (hnd : names.Nodup) :
    (conflictNames pm em names).Nodup :=
  hnd.filter _

theorem overwrite_keys_nodup {pm : String} {em : List (String × Config)}
    {names : List String} (hnd : names.Nodup) :
    (((buildConfigs pm em names).configsToOverwrite).map Prod.fst).Nodup := by
  rw [buildConfigs_overwrites hnd, List.map_map]
  exact (conflictNames_nodup hnd).map
    (fun a b h => configNameOf_inj h)

theorem conflict_has {pm : String} {em : List (String × Config)}
    {names : List String} {s : String} (hs : s ∈ conflictNames pm em names) :
    mapHas em (configNameOf pm s) = true := by
  have hs2 : s ∈ names.filter (fun t => mapHas em (configNameOf pm t)) := hs
  exact (List.mem_filter.1 hs2).2

theorem fresh_not_has {pm : String} {em : List (String × Config)}
    {names : List String} {s : String} (hs : s ∈ freshNames pm em names) :
    mapHas em (configNameOf pm s) = false := by
  have hs2 : s ∈ names.filter (fun t => !mapHas em (configNameOf pm t)) := hs
  have := (List.mem_filter.1 hs2).2
  simpa using this

theorem buildConfigs_get_conflict_old {pm : String} {em : List (String × Config)}
    {names : List String} (hnd : names.Nodup) {s : String}
    (hs : s ∈ conflictNames pm em names) :
    mapGet (buildConfigs pm em names).configMap (configNameOf pm s) =
      mapGet em (configNameOf pm s) := by
  rw [buildConfigs_configMap hnd, mapGet_append]
  have hhas : mapHas em (configNameOf pm s) = true := conflict_has hs
  obtain ⟨v, hv⟩ := Option.isSome_iff_exists.1 (mapGet_isSome_iff.2 hhas)
  rw [hv]
  rfl

theorem setAll_overwrites_get {pm : String} {em : List (String × Config)}
    {names : List String} (hnd : names.Nodup) {s : String}
    (hs : s ∈ conflictNames pm em names) :
    mapGet (setAll (buildConfigs pm em names).configMap
      (buildConfigs pm em names).configsToOverwrite) (configNameOf pm s) =
      some (mkConfig pm s) := by
  rw [mapGet_setAll]
  have hmem : ((configNameOf pm s, mkConfig pm s) : String × Config) ∈
      (buildConfigs pm em names).configsToOverwrite := by
    rw [buildConfigs_overwrites hnd]
    exact List.mem_map_of_mem _ hs
  have hfind := find?_reverse_of_nodup_keys (overwrite_keys_nodup hnd) hmem
  rw [show ((configNameOf pm s, mkConfig pm s) : String × Config).1 =
    configNameOf pm s from rfl] at hfind
  rw [hfind]
  rfl

theorem buildConfigs_get_fresh {pm : String} {em : List (String × Config)}
    {names : List String} (hnd : names.Nodup) {s : String}
    (hs : s ∈ freshNames pm em names) :
    mapGet (buildConfigs pm em names).configMap (configNameOf pm s) =
      some (mkConfig pm s) := by
  rw [buildConfigs_configMap hnd, mapGet_append]
  have hhas : mapHas em (configNameOf pm s) = false := fresh_not_has hs
  have hnone : mapGet em (configNameOf pm s) = none := by
    cases hg : mapGet em (configNameOf pm s) with
    | none => rfl
    | some v =>
      have his : (mapGet em (configNameOf pm s)).isSome = true := by rw [hg]; rfl
      rw [mapGet_isSome_iff, hhas] at his
      cases his
  rw [hnone]
  have hmem : ((configNameOf pm s, mkConfig pm s) : String × Config) ∈
      (freshNames pm em names).map
        (fun t => (configNameOf pm t, mkConfig pm t)) :=
    List.mem_map_of_mem _ hs
  have hkeys : ((((freshNames pm em names).map
      (fun t => (configNameOf pm t, mkConfig pm t)))).map Prod.fst).Nodup := by
    rw [List.map_map]
    exact (hnd.filter _).map (fun a b h => configNameOf_inj h)
  have hget := mapGet_of_nodup_mem hkeys hmem
  rw [show ((configNameOf pm s, mkConfig pm s) : String × Config).1 =
    configNameOf pm s from rfl] at hget
  exact hget

theorem setAll_overwrites_get_fresh {pm : String} {em : List (String × Config)}
    {names : List String} (hnd : names.Nodup) {s : String}
    (hs : s ∈ freshNames pm em names) :
    mapGet (setAll (buildConfigs pm em names).configMap
      (buildConfigs pm em names).configsToOverwrite) (configNameOf pm s) =
      some (mkConfig pm s) := by
  rw [mapGet_setAll]
  have hnone : (((buildConfigs pm em names).configsToOverwrite).reverse.find?
      (fun p => p.1 == configNameOf pm s)) = none := by
    rw [List.find?_eq_none]
    intro p hp
    rw [List.mem_reverse, buildConfigs_overwrites hnd] at hp
    obtain ⟨t, ht, rfl⟩ := List.mem_map.1 hp
    simp only [beq_iff_eq]
    intro hc
    have hts : t = s := configNameOf_inj hc
    subst hts
    have h1 : mapHas em (configNameOf pm t) = true := conflict_has ht
    have h2 : mapHas em (configNameOf pm t) = false := fresh_not_has hs
    rw [h1] at h2
    cases h2
  rw [hnone]
  exact buildConfigs_get_fresh hnd hs

theorem mem_fresh_or_conflict {pm : String} {em : List (String × Config)}
    {names : List String} {s : String} (hs : s ∈ names) :
    s ∈ freshNames pm em names ∨ s ∈ conflictNames pm em names := by
  by_cases h : mapHas em (configNameOf pm s) = true
  · right
    exact List.mem_filter.2 ⟨hs, by simp [h]⟩
  · left
    exact List.mem_filter.2 ⟨hs, by simp [Bool.not_eq_true _ ▸ h]⟩

theorem finalMap_get_confirmed {pm : String} {em : List (String × Config)}
    {names : List String} (hnd : names.Nodup) {s : String} (hs : s ∈ names) :
    mapGet (setAll (buildConfigs pm em names).configMap
      (buildConfigs pm em names).configsToOverwrite) (configNameOf pm s) =
      some (mkConfig pm s) := by
  rcases mem_fresh_or_conflict hs with h | h
  · exact setAll_overwrites_get_fresh hnd h
  · exact setAll_overwrites_get hnd h

theorem confirmedOf_autoYes {opts : CliOptions} (input : String)
    (b : BuildState) (h : opts.autoYes = true) :
    confirmedOf opts input b = true := by
  rw [confirmedOf, askedOf, h]
  simp

theorem confirmedOf_prompted {opts : CliOptions} (input : String)
    {b : BuildState} (h : opts.autoYes = false)
    (hc : b.configsToOverwrite ≠ []) :
    confirmedOf opts input b = interpretAnswer input := by
  rw [confirmedOf, askedOf, h]
  have hlen : decide (0 < b.configsToOverwrite.length) = true := by
    simpa [List.length_pos] using hc
  rw [hlen]
  simp

theorem existingMap_mergedOf (opts : CliOptions) (input : String)
    (b : BuildState) (hndk : (mapKeys b.configMap).Nodup)
    (hinv : NameInv b.configMap)
    (hov : ∀ p ∈ b.configsToOverwrite, (Prod.snd p).name = p.1) :
    existingMap (mergedOf opts input b) = finalMapOf opts input b := by
  have hinv2 : NameInv (finalMapOf opts input b) :=
    finalMapOf_nameInv opts input hinv hov
  rw [existingMap, mergedOf]
  show mapFromList (((finalMapOf opts input b).map Prod.snd).map
    (fun c => (c.name, c))) = _
  have hpairs : ((finalMapOf opts input b).map Prod.snd).map
      (fun c => (c.name, c)) = finalMapOf opts input b := by
    rw [List.map_map]
    have hid : ∀ p ∈ finalMapOf opts input b,
        ((fun (c : Config) => (c.name, c)) ∘ Prod.snd) p = p := by
      intro p hp
      show ((Prod.snd p).name, p.2) = p
      rw [hinv2 p hp]
    exact (List.map_congr_left hid).trans (List.map_id _)
  rw [hpairs]
  exact mapFromList_eq_self (finalMapOf_keys_nodup opts input hndk)

theorem mapKeys_setAll_sub {l : List (String × Config)} :
    ∀ {m : List (String × Config)} {k : String}, k ∈ mapKeys (setAll m l) →
      k ∈ mapKeys m ∨ k ∈ l.map Prod.fst := by
  induction l with
  | nil => intro m k hk; exact Or.inl hk
  | cons p rest ih =>
    intro m k hk
    rw [setAll_cons] at hk
    rcases ih hk with h | h
    · by_cases hh : mapHas m p.1 = true
      · rw [mapKeys_mapSet, if_pos hh] at h
        exact Or.inl h
      · rw [mapKeys_mapSet, if_neg hh] at h
        rcases List.mem_append.1 h with h1 | h1
        · exact Or.inl h1
        · right
          rw [List.mem_singleton] at h1
          subst h1
          rw [List.map_cons]
          exact List.mem_cons_self _ _
    · right
      rw [List.map_cons]
      exact List.mem_cons_of_mem _ h

theorem buildLoop_keys_sub (pm : String) :
    ∀ (names : List String) (st : BuildState) (k : String),
      k ∈ mapKeys ((names.foldl (buildStep pm) st).configMap) →
      k ∈ mapKeys st.configMap ∨ ∃ s ∈ names, k = configNameOf pm s := by
  intro names
  induction names with
  | nil => intro st k h; exact Or.inl h
  | cons s rest ih =>
    intro st k h
    rw [List.foldl_cons] at h
    rcases ih _ k h with h1 | h1
    · by_cases hh : mapHas st.configMap (configNameOf pm s) = true
      · rw [buildStep_of_has hh] at h1
        exact Or.inl h1
      · rw [Bool.not_eq_true] at hh
        rw [buildStep_of_fresh hh] at h1
        have h2 : k ∈ mapKeys (mapSet st.configMap (configNameOf pm s)
            (mkConfig pm s)) := h1
        rw [mapKeys_mapSet, if_neg (by simp [hh])] at h2
        rcases List.mem_append.1 h2 with h3 | h3
        · exact Or.inl h3
        · right
          rw [List.mem_singleton] at h3
          exact ⟨s, List.mem_cons_self _ _, h3⟩
    · obtain ⟨t, ht, hk⟩ := h1
      exact Or.inr ⟨t, List.mem_cons_of_mem _ ht, hk⟩

theorem buildLoop_over_sub (pm : String) :
    ∀ (names : List String) (st : BuildState) (k : String) (c : Config),
      (k, c) ∈ (names.foldl (buildStep pm) st).configsToOverwrite →
      (k, c) ∈ st.configsToOverwrite ∨
        ∃ s ∈ names, k = configNameOf pm s ∧ c = mkConfig pm s := by
  intro names
  induction names with
  | nil => intro st k c h; exact Or.inl h
  | cons s rest ih =>
    intro st k c h
    rw [List.foldl_cons] at h
    rcases ih _ k c h with h1 | h1
    · by_cases hh : mapHas st.configMap (configNameOf pm s) = true
      · rw [buildStep_of_has hh] at h1
        rcases List.mem_append.1 h1 with h2 | h2
        · exact Or.inl h2
        · right
          rw [List.mem_singleton] at h2
          exact ⟨s, List.mem_cons_self _ _, congrArg Prod.fst h2,
            congrArg Prod.snd h2⟩
      · rw [Bool.not_eq_true] at hh
        rw [buildStep_of_fresh hh] at h1
        exact Or.inl h1
    · obtain ⟨t, ht, hk⟩ := h1
      exact Or.inr ⟨t, List.mem_cons_of_mem _ ht, hk⟩

theorem buildLoop_new_sub (pm : String) :
    ∀ (names : List String) (st : BuildState) (k : String),
      k ∈ (names.foldl (buildStep pm) st).newConfigs →
      k ∈ st.newConfigs ∨ ∃ s ∈ names, k = configNameOf pm s := by
  intro names
  induction names with
  | nil => intro st k h; exact Or.inl h
  | cons s rest ih =>
    intro st k h
    rw [List.foldl_cons] at h
    rcases ih _ k h with h1 | h1
    · by_cases hh : mapHas st.configMap (configNameOf pm s) = true
      · rw [buildStep_of_has hh] at h1
        exact Or.inl h1
      · rw [Bool.not_eq_true] at hh
        rw [buildStep_of_fresh hh] at h1
        rcases List.mem_append.1 h1 with h2 | h2
        · exact Or.inl h2
        · right
          rw [List.mem_singleton] at h2
          exact ⟨s, List.mem_cons_self _ _, h2⟩
    · obtain ⟨t, ht, hk⟩ := h1
      exact Or.inr ⟨t, List.mem_cons_of_mem _ ht, hk⟩

theorem mapKeys_existingMap_sub {loaded : LaunchJson} {k : String}
    (hk : k ∈ mapKeys (existingMap loaded)) :
    ∃ c ∈ loaded.configurations, c.name = k := by
  rw [existingMap, mapFromList] at hk
  rcases mapKeys_setAll_sub hk with h | h
  · cases h
  · rw [List.map_map] at h
    obtain ⟨c, hc, hck⟩ := List.mem_map.1 h
    exact ⟨c, hc, hck⟩

/-- Every identifying name in the written map is either the name of an
entry of the loaded document or the synthesized name of a filtered
script. -/
theorem finalMap_keys_sub {opts : CliOptions} {input : String}
    {loaded : LaunchJson} {scripts : List (String × String)} {k : String}
    (hk : k ∈ mapKeys (finalMapOf opts input (buildOf opts loaded scripts))) :
    (∃ c ∈ loaded.configurations, c.name = k) ∨
      ∃ s ∈ scripts.map Prod.fst, k = configNameOf opts.packageManager s := by
  have hb : k ∈ mapKeys (buildOf opts loaded scripts).configMap ∨
      k ∈ ((buildOf opts loaded scripts).configsToOverwrite).map Prod.fst := by
    rw [finalMapOf] at hk
    split at hk
    · exact mapKeys_setAll_sub hk
    · exact Or.inl hk
  have hkey : k ∈ mapKeys (buildOf opts loaded scripts).configMap ∨
      ∃ s ∈ scripts.map Prod.fst, k = configNameOf opts.packageManager s := by
    rcases hb with h | h
    · exact Or.inl h
    · obtain ⟨p, hp, hpk⟩ := List.mem_map.1 h
      rcases buildLoop_over_sub opts.packageManager _ _ p.1 p.2
          (by simpa using hp) with h1 | h1
      · cases h1
      · obtain ⟨s, hs, hk1, _⟩ := h1
        exact Or.inr ⟨s, hs, hpk ▸ hk1⟩
  rcases hkey with h | h
  · rcases buildLoop_keys_sub opts.packageManager _ _ k h with h1 | h1
    · exact Or.inl (mapKeys_existingMap_sub h1)
    · exact Or.inr h1
  · exact Or.inr h

theorem runTool_prompt_count (opts : CliOptions) (env : Env) :
    ((runTool opts env).events).countP isPromptEvent ≤ 1 := by
  rw [runTool]
  split
  · simp [isPromptEvent]
  · rw [runWithScripts]
    split
    · simp [isPromptEvent]
    · split
      · simp
      · simp only [runMerge]
        have hmk : ((if env.vscodeDirExists then ([] : List Event)
            else [Event.mkdirVscode]).countP isPromptEvent) = 0 := by
          split <;> rfl
        have hpe : ∀ (b : Bool) (q : String),
            ((if b then [Event.prompt q] else []).countP isPromptEvent) ≤ 1 := by
          intro b q
          cases b <;> simp [isPromptEvent]
        split
        · dsimp only
          rw [List.countP_append, List.countP_append, hmk,
            loadExisting_prompt_count]
          simpa using hpe _ _
        · dsimp only
          rw [List.countP_append, List.countP_append, List.countP_append, hmk,
            loadExisting_prompt_count]
          have : (([Event.finalWrite (mergedOf opts env.userInput
              (buildOf opts (loadExisting env.target env.flags).1
                (deriveScripts opts.filterPref
                  (env.manifest.scriptsOf.getD []))))]).countP isPromptEvent) = 0 := rfl
          rw [this]
          simpa using hpe _ _

/-- An excluded script name (one not among the filtered names) yields no
conflicting and no new entry. -/
theorem no_entries_of_not_mem {opts : CliOptions} {loaded : LaunchJson}
    {names : List String} {sname : String} (h : sname ∉ names) :
    (∀ c : Config, (configNameOf opts.packageManager sname, c) ∉
        (buildConfigs opts.packageManager (existingMap loaded)
          names).configsToOverwrite) ∧
    configNameOf opts.packageManager sname ∉
        (buildConfigs opts.packageManager (existingMap loaded)
          names).newConfigs := by
  constructor
  · intro c hmem
    rcases buildLoop_over_sub opts.packageManager names
        ⟨existingMap loaded, [], []⟩ _ _ hmem with h1 | h1
    · exact absurd h1 (List.not_mem_nil _)
    · obtain ⟨s, hs, hk, _⟩ := h1
      have he : sname = s := configNameOf_inj hk
      subst he
      exact h hs
  · intro hmem
    rcases buildLoop_new_sub opts.packageManager names
        ⟨existingMap loaded, [], []⟩ _ hmem with h1 | h1
    · exact absurd h1 (List.not_mem_nil _)
    · obtain ⟨s, hs, hk⟩ := h1
      have he : sname = s := configNameOf_inj hk
      subst he
      exact h hs

/-- A script name that includes `generate-launch` survives no run of the
script-extraction stage. -/
theorem self_excluded_not_mem {sname : String}
    (hgl : strIncludes sname "generate-launch" = true)
    (fp : String) (scripts : List (String × String)) :
    sname ∉ (deriveScripts fp scripts).map Prod.fst := by
  intro hmem
  obtain ⟨p, hp, hps⟩ := List.mem_map.1 hmem
  have hp1 : p ∈ scripts.filter
      (fun q => !(strIncludes q.1 "generate-launch")) := by
    simp only [deriveScripts] at hp
    split at hp
    · exact hp
    · exact (List.mem_filter.1 hp).1
  have hkeep := (List.mem_filter.1 hp1).2
  have hgl2 : strIncludes p.1 "generate-launch" = true := by
    rw [hps]
    exact hgl
  rw [hgl2] at hkeep
  cases hkeep

/-- C5: for every script name containing the literal substring
`generate-launch` anywhere (case-sensitive), the corresponding entry
never appears in the output, regardless of the filter: the name survives
no filtering stage, its synthesized entry is neither added as new nor
recorded for overwrite, and — since any same-named entry of the written
file could then only come from the pre-existing document — whenever the
loaded document has no entry of that identifying name, neither does the
written output. -/
theorem claim5_self_exclusion (opts : CliOptions) (env : Env) (sname : String)
    (hgl : strIncludes sname "generate-launch" = true) :
    (∀ (fp : String) (scripts : List (String × String)),
      sname ∉ (deriveScripts fp scripts).map Prod.fst) ∧
    (∀ (loaded : LaunchJson) (scripts : List (String × String)),
      (∀ c : Config, (configNameOf opts.packageManager sname, c) ∉
          (buildOf opts loaded
            (deriveScripts opts.filterPref scripts)).configsToOverwrite) ∧
      configNameOf opts.packageManager sname ∉
          (buildOf opts loaded
            (deriveScripts opts.filterPref scripts)).newConfigs) ∧
    (∀ o : LaunchJson, (runTool opts env).written = some o →
      (∀ c ∈ (loadExisting env.target env.flags).1.configurations,
        c.name ≠ configNameOf opts.packageManager sname) →
      ∀ c ∈ o.configurations,
        c.name ≠ configNameOf opts.packageManager sname) := by
  refine ⟨self_excluded_not_mem hgl, ?_, ?_⟩
  · intro loaded scripts
    exact no_entries_of_not_mem
      (self_excluded_not_mem hgl opts.filterPref scripts)
  · intro o hw hold c hc hcname
    obtain ⟨_, _, _, ho⟩ := runTool_written_inv opts env o hw
    subst ho
    have hcm : c ∈ (finalMapOf opts env.userInput
        (buildOf opts (loadExisting env.target env.flags).1
          (deriveScripts opts.filterPref
            (env.manifest.scriptsOf.getD [])))).map Prod.snd := hc
    obtain ⟨p, hp, hpc⟩ := List.mem_map.1 hcm
    have hinv : NameInv (finalMapOf opts env.userInput
        (buildOf opts (loadExisting env.target env.flags).1
          (deriveScripts opts.filterPref
            (env.manifest.scriptsOf.getD [])))) :=
      finalMapOf_nameInv _ _ (buildOf_nameInv _ _ _) (buildOf_overwrites_inv _ _ _)
    have hkey : c.name ∈ mapKeys (finalMapOf opts env.userInput
        (buildOf opts (loadExisting env.target env.flags).1
          (deriveScripts opts.filterPref
            (env.manifest.scriptsOf.getD [])))) := by
      rw [← hpc, hinv p hp]
      exact List.mem_map_of_mem Prod.fst hp
    rcases finalMap_keys_sub hkey with h1 | h1
    · obtain ⟨ce, hce, hcen⟩ := h1
      exact hold ce hce (hcen.trans hcname)
    · obtain ⟨s, hs, hk⟩ := h1
      have he : sname = s := configNameOf_inj (hcname ▸ hk)
      subst he
      exact self_excluded_not_mem hgl opts.filterPref _ hs

/-- Witness for C5 at the concrete name `generate-launch:yes`. -/
theorem claim5_self_exclusion_witness :
    strIncludes "generate-launch:yes" "generate-launch" = true ∧
    "generate-launch:yes" ∉
      (deriveScripts "" [("generate-launch:yes", "x"), ("dev", "y")]).map
        Prod.fst :=
  ⟨by decide,
    (claim5_self_exclusion sampleOpts (sampleEnv "") "generate-launch:yes"
      (by decide)).1 "" [("generate-launch:yes", "x"), ("dev", "y")]⟩

/-- C6: with a non-empty filter, every retained script name starts with
the filter (case-sensitive, exact), and an eligible script whose name
does not start with the filter is retained by no run and yields neither
a new nor an overwriting entry. -/
theorem claim6_filter (opts : CliOptions)
    (hfp : ¬opts.filterPref = "") (scripts : List (String × String)) :
    (∀ s ∈ (deriveScripts opts.filterPref scripts).map Prod.fst,
      strStartsWith s opts.filterPref = true) ∧
    ∀ sname : String, strStartsWith sname opts.filterPref = false →
      sname ∉ (deriveScripts opts.filterPref scripts).map Prod.fst ∧
      ∀ loaded : LaunchJson,
        (∀ c : Config, (configNameOf opts.packageManager sname, c) ∉
            (buildOf opts loaded
              (deriveScripts opts.filterPref scripts)).configsToOverwrite) ∧
        configNameOf opts.packageManager sname ∉
            (buildOf opts loaded
              (deriveScripts opts.filterPref scripts)).newConfigs := by
  have hstart : ∀ s ∈ (deriveScripts opts.filterPref scripts).map Prod.fst,
      strStartsWith s opts.filterPref = true := by
    intro s hs
    obtain ⟨p, hp, hps⟩ := List.mem_map.1 hs
    simp only [deriveScripts] at hp
    rw [if_neg hfp] at hp
    have := (List.mem_filter.1 hp).2
    rw [hps] at this
    exact this
  refine ⟨hstart, ?_⟩
  intro sname hns
  have hnm : sname ∉ (deriveScripts opts.filterPref scripts).map Prod.fst := by
    intro hmem
    rw [hstart sname hmem] at hns
    cases hns
  exact ⟨hnm, fun loaded => no_entries_of_not_mem hnm⟩

/-- Witness for C6 with filter `dev`. -/
theorem claim6_filter_witness :
    (∀ s ∈ (deriveScripts "dev"
        [("dev:client", "x"), ("dev:server", "y"), ("test", "z")]).map
        Prod.fst, strStartsWith s "dev" = true) ∧
    "test" ∉ (deriveScripts "dev"
        [("dev:client", "x"), ("dev:server", "y"), ("test", "z")]).map
        Prod.fst := by
  have h := claim6_filter ⟨"npm", "dev", false⟩ (by decide)
    [("dev:client", "x"), ("dev:server", "y"), ("test", "z")]
  exact ⟨h.1, (h.2 "test" (by decide)).1⟩

/-- C7: when the filtered script set is empty (scripts mapping empty or
absent, or everything removed by the self-exclusion and filter stages),
the run emits the warning, exits with status 0, and writes no target
file. -/
theorem claim7_empty_scripts (opts : CliOptions) (env : Env)
    (hm : ¬env.manifest = .absent)
    (he : deriveScripts opts.filterPref (env.manifest.scriptsOf.getD []) = []) :
    runTool opts env = ⟨.exited 0, none, [.warnNoScripts]⟩ := by
  rw [runTool, if_neg hm, runWithScripts, he]
  rfl

/-- Witness for C7: the only script is self-excluded, so the filtered set
is empty. -/
theorem claim7_empty_scripts_witness :
    runTool sampleOpts envSelfOnly = ⟨.exited 0, none, [.warnNoScripts]⟩ :=
  claim7_empty_scripts sampleOpts envSelfOnly (by decide) (by decide)

/-- C8: a missing manifest prints the diagnostic and exits with status 1;
conversely, `process.exit(1)` is reached in no other run: every run whose
termination is `exited 1` had an absent manifest (uncaught I/O exceptions
are modelled separately as `crashed`). -/
theorem claim8_manifest_missing (opts : CliOptions) (env : Env) :
    (env.manifest = .absent →
      runTool opts env = ⟨.exited 1, none, [.errorNoManifest]⟩) ∧
    ((runTool opts env).termination = .exited 1 → env.manifest = .absent) := by
  constructor
  · intro h
    rw [runTool, if_pos h]
  · intro h1
    rw [runTool] at h1
    split at h1
    · assumption
    · exfalso
      rw [runWithScripts] at h1
      split at h1
      · simp at h1
      · split at h1
        · simp at h1
        · simp only [runMerge] at h1
          split at h1
          · simp at h1
          · simp at h1

/-- Witness for C8 at a concrete absent-manifest environment. -/
theorem claim8_manifest_missing_witness :
    runTool sampleOpts envNoManifest =
      ⟨.exited 1, none, [.errorNoManifest]⟩ :=
  (claim8_manifest_missing sampleOpts envNoManifest).1 rfl

/-- How one prompted run resolves each conflicting entry: the run writes
a file, refusing keeps each conflicting identifying name bound to its
old value, confirming rebinds it to the newly synthesized config. -/
theorem run_conflict_resolution (opts : CliOptions) (env : Env)
    (L : LaunchJson) (raw : String)
    (hm : ¬env.manifest = .absent)
    (ht : env.target = .present raw (some L))
    (hfl : env.flags = noFail)
    (hy : opts.autoYes = false)
    (hnd : ((deriveScripts opts.filterPref
      (env.manifest.scriptsOf.getD [])).map Prod.fst).Nodup)
    (n : String) (c : Config)
    (hc : (n, c) ∈ conflictsOf opts L
      (deriveScripts opts.filterPref (env.manifest.scriptsOf.getD []))) :
    ∃ out, (runTool opts env).written = some out ∧
      (interpretAnswer env.userInput = false →
        findByName out.configurations n = mapGet (existingMap L) n) ∧
      (interpretAnswer env.userInput = true →
        findByName out.configurations n = some c) := by
  have hcmem : (n, c) ∈ (buildOf opts L (deriveScripts opts.filterPref
      (env.manifest.scriptsOf.getD []))).configsToOverwrite := hc
  have hover : (buildOf opts L (deriveScripts opts.filterPref
      (env.manifest.scriptsOf.getD []))).configsToOverwrite ≠ [] :=
    List.ne_nil_of_mem hcmem
  have hc2 : (n, c) ∈ (conflictNames opts.packageManager (existingMap L)
      ((deriveScripts opts.filterPref
        (env.manifest.scriptsOf.getD [])).map Prod.fst)).map
      (fun s => (configNameOf opts.packageManager s,
        mkConfig opts.packageManager s)) := by
    rw [← buildConfigs_overwrites hnd]
    exact hcmem
  obtain ⟨s, hs, hpair⟩ := List.mem_map.1 hc2
  have hn : configNameOf opts.packageManager s = n := congrArg Prod.fst hpair
  have hcc : mkConfig opts.packageManager s = c := congrArg Prod.snd hpair
  subst hn
  subst hcc
  have hs2 : s ∈ ((deriveScripts opts.filterPref
      (env.manifest.scriptsOf.getD [])).map Prod.fst).filter
      (fun t => mapHas (existingMap L)
        (configNameOf opts.packageManager t)) := hs
  have hsm := (List.mem_filter.1 hs2).1
  have hne : (deriveScripts opts.filterPref
      (env.manifest.scriptsOf.getD [])).isEmpty = false := by
    apply isEmpty_false_of_ne_nil
    intro hh
    rw [hh] at hsm
    cases hsm
  have hload : (loadExisting env.target env.flags).1 = L := by
    rw [ht, hfl]
    rfl
  have hw := runTool_written_eq opts env hm hne
    (by rw [hfl]; simp [noFail]) (by rw [hfl]; rfl)
  rw [hload] at hw
  have hconf : confirmedOf opts env.userInput
      (buildOf opts L (deriveScripts opts.filterPref
        (env.manifest.scriptsOf.getD []))) = interpretAnswer env.userInput :=
    confirmedOf_prompted _ hy hover
  have hinv : NameInv (finalMapOf opts env.userInput
      (buildOf opts L (deriveScripts opts.filterPref
        (env.manifest.scriptsOf.getD [])))) :=
    finalMapOf_nameInv _ _ (buildOf_nameInv _ _ _) (buildOf_overwrites_inv _ _ _)
  refine ⟨_, hw, ?_, ?_⟩
  · intro hno
    show findByName ((finalMapOf opts env.userInput
      (buildOf opts L (deriveScripts opts.filterPref
        (env.manifest.scriptsOf.getD [])))).map Prod.snd) _ = _
    rw [findByName_map_snd hinv, finalMapOf, hconf, hno]
    simp only [Bool.false_eq_true, if_false]
    exact buildConfigs_get_conflict_old hnd hs
  · intro hyes
    show findByName ((finalMapOf opts env.userInput
      (buildOf opts L (deriveScripts opts.filterPref
        (env.manifest.scriptsOf.getD [])))).map Prod.snd) _ = _
    rw [findByName_map_snd hinv, finalMapOf, hconf, hyes]
    simp only [if_true]
    exact setAll_overwrites_get hnd hs

/-- C1: at most one yes/no question is asked per invocation regardless of
how many entries conflict, and the single answer applies to all conflicts
uniformly — answering no leaves every conflicting identifying name bound
to its old (pre-run) entry in the written file, answering yes replaces
every conflicting entry with the newly synthesized one. -/
theorem claim1_single_question_uniform (opts : CliOptions) (env : Env)
    (L : LaunchJson) (raw : String)
    (hm : ¬env.manifest = .absent)
    (ht : env.target = .present raw (some L))
    (hfl : env.flags = noFail)
    (hy : opts.autoYes = false)
    (hnd : ((deriveScripts opts.filterPref
      (env.manifest.scriptsOf.getD [])).map Prod.fst).Nodup) :
    (∀ (opts2 : CliOptions) (env2 : Env),
      ((runTool opts2 env2).events).countP isPromptEvent ≤ 1) ∧
    ∀ n c, (n, c) ∈ conflictsOf opts L
        (deriveScripts opts.filterPref (env.manifest.scriptsOf.getD [])) →
      ∃ out, (runTool opts env).written = some out ∧
        (interpretAnswer env.userInput = false →
          findByName out.configurations n = mapGet (existingMap L) n) ∧
        (interpretAnswer env.userInput = true →
          findByName out.configurations n = some c) :=
  ⟨runTool_prompt_count,
   fun n c hc => run_conflict_resolution opts env L raw hm ht hfl hy hnd n c hc⟩

/-- Witness for C1: a run over `sampleLaunch` (old entry `npm: dev`) with
answer `n`; the conflict for `npm: dev` resolves to the old entry. -/
theorem claim1_single_question_uniform_witness :
    ∃ out, (runTool sampleOpts (sampleEnv "n")).written = some out ∧
      (interpretAnswer "n" = false →
        findByName out.configurations "npm: dev" =
          mapGet (existingMap sampleLaunch) "npm: dev") ∧
      (interpretAnswer "n" = true →
        findByName out.configurations "npm: dev" =
          some (mkConfig "npm" "dev")) :=
  (claim1_single_question_uniform sampleOpts (sampleEnv "n") sampleLaunch
    "RAW" (by decide) rfl rfl rfl (by decide)).2 "npm: dev"
    (mkConfig "npm" "dev") (by decide)

/-- C10: the overwrite prompt is confirmed iff the trimmed, lowercased
input is exactly `y`; every other input — `yes` and the empty line
included — refuses, leaving each conflicting identifying name bound to
its old value. -/
theorem claim10_answer_interpretation (opts : CliOptions) (env : Env)
    (L : LaunchJson) (raw : String)
    (hm : ¬env.manifest = .absent)
    (ht : env.target = .present raw (some L))
    (hfl : env.flags = noFail)
    (hy : opts.autoYes = false)
    (hnd : ((deriveScripts opts.filterPref
      (env.manifest.scriptsOf.getD [])).map Prod.fst).Nodup) :
    (∀ a : String, interpretAnswer a = true ↔
      (trimChars a.data).map Char.toLower = "y".data) ∧
    interpretAnswer "yes" = false ∧
    interpretAnswer "" = false ∧
    interpretAnswer " Y " = true ∧
    (interpretAnswer env.userInput = false →
      ∀ n c, (n, c) ∈ conflictsOf opts L
          (deriveScripts opts.filterPref (env.manifest.scriptsOf.getD [])) →
        ∃ out, (runTool opts env).written = some out ∧
          findByName out.configurations n = mapGet (existingMap L) n) := by
  refine ⟨?_, by decide, by decide, by decide, ?_⟩
  · intro a
    rw [interpretAnswer]
    exact beq_iff_eq
  · intro hno n c hc
    obtain ⟨out, hw, hres, _⟩ :=
      run_conflict_resolution opts env L raw hm ht hfl hy hnd n c hc
    exact ⟨out, hw, hres hno⟩

/-- Witness for C10: the answer `yes` refuses, keeping the old
`npm: dev` entry. -/
theorem claim10_answer_interpretation_witness :
    interpretAnswer "yes" = false ∧
    ∃ out, (runTool sampleOpts (sampleEnv "yes")).written = some out ∧
      findByName out.configurations "npm: dev" =
        mapGet (existingMap sampleLaunch) "npm: dev" := by
  have h := claim10_answer_interpretation sampleOpts (sampleEnv "yes")
    sampleLaunch "RAW" (by decide) rfl rfl rfl (by decide)
  exact ⟨h.2.1, h.2.2.2.2 (by decide) "npm: dev" (mkConfig "npm" "dev")
    (by decide)⟩

/-- C4: every written configurations list has pairwise distinct
identifying names, and the working map built from a pre-existing document
is characterized by last-write-wins: looking a name up yields the value
of the last entry carrying it (the first hit in the reversed entry
list). -/
theorem claim4_no_duplicate_names (opts : CliOptions) (env : Env) :
    (∀ o : LaunchJson, (runTool opts env).written = some o →
      ((o.configurations).map Config.name).Nodup) ∧
    ∀ (L : LaunchJson) (k : String),
      mapGet (existingMap L) k =
        ((L.configurations.map (fun c => (c.name, c))).reverse.find?
          (fun p => p.1 == k)).map (·.2) := by
  constructor
  · intro o hw
    obtain ⟨_, _, _, ho⟩ := runTool_written_inv opts env o hw
    subst ho
    exact mergedOf_names_nodup _ _ _ _
  · intro L k
    rw [existingMap, mapGet_mapFromList]

/-- Witness for C4: the concrete run writes `[npm: dev (old), npm: build]`
with distinct names, and on a duplicated input document the map keeps the
last occurrence. -/
theorem claim4_no_duplicate_names_witness :
    ((runTool sampleOpts (sampleEnv "n")).written =
      some ⟨"0.2.0", [sampleOld, mkConfig "npm" "build"]⟩) ∧
    (([sampleOld, mkConfig "npm" "build"] : List Config).map
      Config.name).Nodup ∧
    mapGet (existingMap dupLaunch) "npm: dev" = some sampleOld2 :=
  ⟨by decide,
   (claim4_no_duplicate_names sampleOpts (sampleEnv "n")).1
     ⟨"0.2.0", [sampleOld, mkConfig "npm" "build"]⟩ (by decide),
   ((claim4_no_duplicate_names sampleOpts (sampleEnv "n")).2 dupLaunch
     "npm: dev").trans (by decide)⟩

/-- C3 counterexample: a run with an existing target file but an empty
filtered script set (`envSelfOnly`) exits at the script-extraction stage
and writes no backup, although the target file existed beforehand. -/
theorem claim3_backup_counterexample :
    envSelfOnly.target = .present "OLDCONTENT" (some sampleLaunch) ∧
    ((runTool sampleOpts envSelfOnly).events).countP isBackupEvent = 0 := by
  decide

/-- C3 (amended): in every run that reaches the backup-and-load stage
(manifest present, filtered scripts non-empty, no I/O failure) with an
existing target file, a backup carrying the target's exact pre-run
content is written, immediately before the parse attempt (only the
optional directory creation precedes it); and when the content does not
parse the stage still yields the fresh default with the backup already
recorded. -/
theorem claim3_backup_amended (opts : CliOptions) (env : Env)
    (raw : String) (parsed : Option LaunchJson)
    (hm : ¬env.manifest = .absent)
    (hne : (deriveScripts opts.filterPref
      (env.manifest.scriptsOf.getD [])).isEmpty = false)
    (hfl : env.flags = noFail)
    (ht : env.target = .present raw parsed) :
    (∃ rest, (runTool opts env).events =
      (if env.vscodeDirExists then [] else [Event.mkdirVscode]) ++
        Event.backupWrite raw :: Event.parseAttempt raw :: rest) ∧
    (parsed = none →
      loadExisting env.target env.flags =
        (freshLaunchJson,
          [.backupWrite raw, .parseAttempt raw, .warnParseFailure])) := by
  have hev := runTool_events_eq opts env hm hne
    (by rw [hfl]; simp [noFail]) (by rw [hfl]; rfl)
  constructor
  · cases parsed with
    | some l =>
      have hl : loadExisting env.target env.flags =
          (l, [.backupWrite raw, .parseAttempt raw]) := by
        rw [ht, hfl]
        rfl
      rw [hl] at hev
      refine ⟨(if askedOf opts (buildOf opts l (deriveScripts opts.filterPref
          (env.manifest.scriptsOf.getD [])))
        then [Event.prompt (overwriteQuestion (buildOf opts l
          (deriveScripts opts.filterPref
            (env.manifest.scriptsOf.getD []))).configsToOverwrite.length)]
        else []) ++
        [Event.finalWrite (mergedOf opts env.userInput (buildOf opts l
          (deriveScripts opts.filterPref
            (env.manifest.scriptsOf.getD []))))], ?_⟩
      rw [hev]
      simp [List.append_assoc]
    | none =>
      have hl : loadExisting env.target env.flags =
          (freshLaunchJson,
            [.backupWrite raw, .parseAttempt raw, .warnParseFailure]) := by
        rw [ht, hfl]
        rfl
      rw [hl] at hev
      refine ⟨Event.warnParseFailure ::
        ((if askedOf opts (buildOf opts freshLaunchJson
            (deriveScripts opts.filterPref (env.manifest.scriptsOf.getD [])))
          then [Event.prompt (overwriteQuestion (buildOf opts freshLaunchJson
            (deriveScripts opts.filterPref
              (env.manifest.scriptsOf.getD []))).configsToOverwrite.length)]
          else []) ++
          [Event.finalWrite (mergedOf opts env.userInput
            (buildOf opts freshLaunchJson (deriveScripts opts.filterPref
              (env.manifest.scriptsOf.getD []))))]), ?_⟩
      rw [hev]
      simp [List.append_assoc]
  · intro hp
    rw [ht, hfl, hp]
    rfl

/-- Witness for C3 (amended) on the concrete normal run. -/
theorem claim3_backup_amended_witness :
    ∃ rest, (runTool sampleOpts (sampleEnv "n")).events =
      ([] : List Event) ++
        Event.backupWrite "RAW" :: Event.parseAttempt "RAW" :: rest :=
  (claim3_backup_amended sampleOpts (sampleEnv "n") "RAW"
    (some sampleLaunch) (by decide) (by decide) rfl rfl).1

/-- C9 counterexample: a failing backup write does not propagate — the
`try`/`catch` around the backup-and-parse block swallows it, the run
completes, and the merged file is still written. -/
theorem claim9_io_counterexample :
    envBackupFail.flags.backupWriteFails = true ∧
    (runTool sampleOpts envBackupFail).termination = .completed ∧
    (runTool sampleOpts envBackupFail).written ≠ none := by
  decide

/-- C9 (amended): an I/O failure in directory creation or in the final
target write propagates and terminates the run with nothing written;
a failure of the backup write, however, is caught by the handler shared
with parse failures and the run proceeds fresh to completion. -/
theorem claim9_io_failures (opts : CliOptions) (env : Env)
    (hm : ¬env.manifest = .absent)
    (hne : (deriveScripts opts.filterPref
      (env.manifest.scriptsOf.getD [])).isEmpty = false) :
    (env.vscodeDirExists = false → env.flags.mkdirFails = true →
      runTool opts env = ⟨.crashed "mkdirSync", none, []⟩) ∧
    ((!env.vscodeDirExists && env.flags.mkdirFails) = false →
      env.flags.finalWriteFails = true →
      (runTool opts env).termination = .crashed "writeFileSync launch.json" ∧
      (runTool opts env).written = none) ∧
    (∀ raw parsed, env.target = .present raw parsed →
      env.flags = ⟨false, false, true, false⟩ →
      (runTool opts env).termination = .completed ∧
      (runTool opts env).written ≠ none ∧
      loadExisting env.target env.flags =
        (freshLaunchJson, [.warnParseFailure])) := by
  refine ⟨?_, ?_, ?_⟩
  · intro hv hmk
    rw [runTool, if_neg hm, runWithScripts, if_neg (by simp [hne]),
      if_pos (by simp [hv, hmk])]
  · intro hmk hwf
    rw [runTool, if_neg hm, runWithScripts, if_neg (by simp [hne]),
      if_neg (by simp [hmk])]
    simp only [runMerge]
    rw [if_pos hwf]
    exact ⟨rfl, rfl⟩
  · intro raw parsed ht hfl
    have hterm : (runTool opts env).termination = .completed ∧
        (runTool opts env).written ≠ none := by
      rw [runTool, if_neg hm, runWithScripts, if_neg (by simp [hne]),
        if_neg (by rw [hfl]; simp)]
      simp only [runMerge]
      rw [if_neg (by rw [hfl]; simp)]
      exact ⟨rfl, by simp⟩
    refine ⟨hterm.1, hterm.2, ?_⟩
    rw [ht, hfl]
    rfl

/-- C2: running the tool with `--yes` on the file written by a first
`--yes` run over the same manifest reproduces exactly the same document,
and no written file ever carries two entries with the same identifying
name. -/
theorem claim2_idempotence (opts : CliOptions) (env1 env2 : Env)
    (o1 : LaunchJson) (raw2 : String)
    (hy : opts.autoYes = true)
    (hm : env1.manifest = env2.manifest)
    (hm1 : ¬env1.manifest = .absent)
    (hfl2 : env2.flags = noFail)
    (hnd : ((deriveScripts opts.filterPref
      (env1.manifest.scriptsOf.getD [])).map Prod.fst).Nodup)
    (hw1 : (runTool opts env1).written = some o1)
    (ht2 : env2.target = .present raw2 (some o1)) :
    (runTool opts env2).written = some o1 ∧
    ((o1.configurations).map Config.name).Nodup := by
  obtain ⟨hm1x, hne1, hwf1, ho1⟩ := runTool_written_inv opts env1 o1 hw1
  subst ho1
  have hm2 : ¬env2.manifest = .absent := by
    rw [← hm]
    exact hm1
  have hsc : env2.manifest.scriptsOf = env1.manifest.scriptsOf := by
    rw [hm]
  have hne2 : (deriveScripts opts.filterPref
      (env2.manifest.scriptsOf.getD [])).isEmpty = false := by
    rw [hsc]
    exact hne1
  have hw2 := runTool_written_eq opts env2 hm2 hne2
    (by rw [hfl2]; simp [noFail]) (by rw [hfl2]; rfl)
  have hload2 : (loadExisting env2.target env2.flags).1 =
      mergedOf opts env1.userInput
        (buildOf opts (loadExisting env1.target env1.flags).1
          (deriveScripts opts.filterPref
            (env1.manifest.scriptsOf.getD []))) := by
    rw [ht2, hfl2]
    rfl
  rw [hload2, hsc] at hw2
  have hconf1 : confirmedOf opts env1.userInput
      (buildOf opts (loadExisting env1.target env1.flags).1
        (deriveScripts opts.filterPref
          (env1.manifest.scriptsOf.getD []))) = true :=
    confirmedOf_autoYes _ _ hy
  have hM1 : finalMapOf opts env1.userInput
      (buildOf opts (loadExisting env1.target env1.flags).1
        (deriveScripts opts.filterPref
          (env1.manifest.scriptsOf.getD []))) =
      setAll (buildOf opts (loadExisting env1.target env1.flags).1
        (deriveScripts opts.filterPref
          (env1.manifest.scriptsOf.getD []))).configMap
        (buildOf opts (loadExisting env1.target env1.flags).1
          (deriveScripts opts.filterPref
            (env1.manifest.scriptsOf.getD []))).configsToOverwrite := by
    rw [finalMapOf, hconf1]
    simp
  have hM1nodup : (mapKeys (finalMapOf opts env1.userInput
      (buildOf opts (loadExisting env1.target env1.flags).1
        (deriveScripts opts.filterPref
          (env1.manifest.scriptsOf.getD []))))).Nodup :=
    finalMapOf_keys_nodup _ _ (buildOf_keys_nodup _ _ _)
  have hget1 : ∀ s ∈ (deriveScripts opts.filterPref
      (env1.manifest.scriptsOf.getD [])).map Prod.fst,
      mapGet (finalMapOf opts env1.userInput
        (buildOf opts (loadExisting env1.target env1.flags).1
          (deriveScripts opts.filterPref
            (env1.manifest.scriptsOf.getD []))))
        (configNameOf opts.packageManager s) =
        some (mkConfig opts.packageManager s) := by
    intro s hsm
    rw [hM1]
    exact finalMap_get_confirmed hnd hsm
  have hem2 : existingMap (mergedOf opts env1.userInput
      (buildOf opts (loadExisting env1.target env1.flags).1
        (deriveScripts opts.filterPref
          (env1.manifest.scriptsOf.getD [])))) =
      finalMapOf opts env1.userInput
        (buildOf opts (loadExisting env1.target env1.flags).1
          (deriveScripts opts.filterPref
            (env1.manifest.scriptsOf.getD []))) :=
    existingMap_mergedOf _ _ _ (buildOf_keys_nodup _ _ _)
      (buildOf_nameInv _ _ _) (buildOf_overwrites_inv _ _ _)
  have hhas : ∀ s ∈ (deriveScripts opts.filterPref
      (env1.manifest.scriptsOf.getD [])).map Prod.fst,
      mapHas (existingMap (mergedOf opts env1.userInput
        (buildOf opts (loadExisting env1.target env1.flags).1
          (deriveScripts opts.filterPref
            (env1.manifest.scriptsOf.getD [])))))
        (configNameOf opts.packageManager s) = true := by
    intro s hsm
    rw [hem2]
    apply mapGet_isSome_iff.1
    rw [hget1 s hsm]
    rfl
  have hfresh : freshNames opts.packageManager
      (existingMap (mergedOf opts env1.userInput
        (buildOf opts (loadExisting env1.target env1.flags).1
          (deriveScripts opts.filterPref
            (env1.manifest.scriptsOf.getD [])))))
      ((deriveScripts opts.filterPref
        (env1.manifest.scriptsOf.getD [])).map Prod.fst) = [] := by
    rw [freshNames, List.filter_eq_nil_iff]
    intro s hsm
    rw [hhas s hsm]
    decide
  have hconfl : conflictNames opts.packageManager
      (existingMap (mergedOf opts env1.userInput
        (buildOf opts (loadExisting env1.target env1.flags).1
          (deriveScripts opts.filterPref
            (env1.manifest.scriptsOf.getD [])))))
      ((deriveScripts opts.filterPref
        (env1.manifest.scriptsOf.getD [])).map Prod.fst) =
      (deriveScripts opts.filterPref
        (env1.manifest.scriptsOf.getD [])).map Prod.fst := by
    rw [conflictNames]
    exact List.filter_eq_self.2 hhas
  have hb2map : (buildOf opts (mergedOf opts env1.userInput
      (buildOf opts (loadExisting env1.target env1.flags).1
        (deriveScripts opts.filterPref
          (env1.manifest.scriptsOf.getD []))))
      (deriveScripts opts.filterPref
        (env1.manifest.scriptsOf.getD []))).configMap =
      existingMap (mergedOf opts env1.userInput
        (buildOf opts (loadExisting env1.target env1.flags).1
          (deriveScripts opts.filterPref
            (env1.manifest.scriptsOf.getD [])))) := by
    rw [buildOf_configMap_eq opts _ hnd, hfresh]
    simp
  have hb2over : (buildOf opts (mergedOf opts env1.userInput
      (buildOf opts (loadExisting env1.target env1.flags).1
        (deriveScripts opts.filterPref
          (env1.manifest.scriptsOf.getD []))))
      (deriveScripts opts.filterPref
        (env1.manifest.scriptsOf.getD []))).configsToOverwrite =
      ((deriveScripts opts.filterPref
        (env1.manifest.scriptsOf.getD [])).map Prod.fst).map
        (fun s => (configNameOf opts.packageManager s,
          mkConfig opts.packageManager s)) := by
    rw [buildOf_overwrites_eq opts _ hnd, hconfl]
  have hconf2 : confirmedOf opts env2.userInput
      (buildOf opts (mergedOf opts env1.userInput
        (buildOf opts (loadExisting env1.target env1.flags).1
          (deriveScripts opts.filterPref
            (env1.manifest.scriptsOf.getD []))))
        (deriveScripts opts.filterPref
          (env1.manifest.scriptsOf.getD []))) = true :=
    confirmedOf_autoYes _ _ hy
  have hfm2 : finalMapOf opts env2.userInput
      (buildOf opts (mergedOf opts env1.userInput
        (buildOf opts (loadExisting env1.target env1.flags).1
          (deriveScripts opts.filterPref
            (env1.manifest.scriptsOf.getD []))))
        (deriveScripts opts.filterPref
          (env1.manifest.scriptsOf.getD []))) =
      finalMapOf opts env1.userInput
        (buildOf opts (loadExisting env1.target env1.flags).1
          (deriveScripts opts.filterPref
            (env1.manifest.scriptsOf.getD []))) := by
    rw [finalMapOf, hconf2]
    simp only [if_true]
    rw [hb2map, hb2over, hem2]
    apply setAll_eq_self hM1nodup
    intro p hp
    obtain ⟨s, hsm, rfl⟩ := List.mem_map.1 hp
    exact hget1 s hsm
  have hkey : mergedOf opts env2.userInput
      (buildOf opts (mergedOf opts env1.userInput
        (buildOf opts (loadExisting env1.target env1.flags).1
          (deriveScripts opts.filterPref
            (env1.manifest.scriptsOf.getD []))))
        (deriveScripts opts.filterPref
          (env1.manifest.scriptsOf.getD []))) =
      mergedOf opts env1.userInput
        (buildOf opts (loadExisting env1.target env1.flags).1
          (deriveScripts opts.filterPref
            (env1.manifest.scriptsOf.getD []))) :=
    congrArg (fun (m : List (String × Config)) =>
      (⟨"0.2.0", m.map Prod.snd⟩ : LaunchJson)) hfm2
  rw [hkey] at hw2
  exact ⟨hw2, mergedOf_names_nodup _ _ _ _⟩

/-- Witness for C2 on the concrete second run over the first run's
output. -/
theorem claim2_idempotence_witness :
    (runTool sampleOptsYes sampleEnv2).written = some sampleOut ∧
    ((sampleOut.configurations).map Config.name).Nodup :=
  claim2_idempotence sampleOptsYes (sampleEnv "") sampleEnv2 sampleOut
    "RAW2" rfl rfl (by decide) rfl (by decide) (by decide) rfl

/-- Witness for C9 (amended) at the three concrete environments. -/
theorem claim9_io_failures_witness :
    (runTool sampleOpts envMkdirFail = ⟨.crashed "mkdirSync", none, []⟩) ∧
    ((runTool sampleOpts envWriteFail).termination =
      .crashed "writeFileSync launch.json") ∧
    (runTool sampleOpts envBackupFail).termination = .completed := by
  refine ⟨?_, ?_, ?_⟩
  · exact (claim9_io_failures sampleOpts envMkdirFail (by decide)
      (by decide)).1 rfl rfl
  · exact ((claim9_io_failures sampleOpts envWriteFail (by decide)
      (by decide)).2.1 (by decide) rfl).1
  · exact ((claim9_io_failures sampleOpts envBackupFail (by decide)
      (by decide)).2.2 "RAW" (some sampleLaunch) rfl rfl).1

end LaunchGen
